import Mathlib

/-!
Shallow embedding of the tada in-memory tabular data engine
(valueContainer / Series / DataFrame core) and proofs about it.

Conventions of the embedding:
* Go `float64` cell values are modelled as `ℚ`; `NaN` never appears as a
  value because the engine tracks nullness in the separate `isNull` mask
  (a float cell is null exactly when it was `NaN` at construction).
* Go `time.Time` is modelled as an integer timestamp `ℤ`.
* Go slice indexing with an `int` index is modelled by `goGet`; a read
  outside the bounds is `none`, which models a Go runtime panic.
* fallible Go functions return `GoRes`: `.ok` for a normal result,
  `.goErr` for an `error` return value, `.crash` for a runtime panic.
-/

namespace Tada

/-- element kind of a Go slice held by a valueContainer
(the closed set of supported kinds: float64, string, time.Time, int). -/
inductive DKind where
  | float
  | string
  | dateTime
  | int
deriving Repr, DecidableEq

/-- one cell value (float64 / string / time.Time / int, as tracked by DKind). -/
inductive Val where
  | float (x : ℚ)
  | str (s : String)
  | time (t : ℤ)
  | int (n : ℤ)
deriving Repr, DecidableEq

/-- the zero value of a slice element kind, `reflect.Zero(type)` in the source. -/
def kindZero : DKind → Val
  | .float => .float 0
  | .string => .str ""
  | .dateTime => .time 0
  | .int => .int 0

/-- result of a Go call: a value, an `error` return, or a runtime panic. -/
inductive GoRes (α : Type) where
  | ok (a : α)
  | goErr (msg : String)
  | crash
deriving Repr, DecidableEq

/-- Go slice read `xs[i]` with an `int` index: out-of-range (including
negative) indices are a runtime panic, modelled as `none`. -/
def goGet {α : Type} (xs : List α) (i : Int) : Option α :=
  if i < 0 then none else xs.get? i.toNat

/-- embeds the `valueContainer` struct from types.go: a typed, named,
null-masked sequence. `kind` records the element type of the Go slice. -/
structure valueContainer where
  kind : DKind
  slice : List Val
  isNull : List Bool
  name : String
deriving Repr, DecidableEq

/-- Modelled from the spec: the `str()` string projection of a single cell,
used by src code (`concatenateLabelsToStrings`, `labelsToMap`,
`valueContainer.append`) whose conversion helpers are not under src/.
Per the spec every representable value coerces totally to a string. -/
def valToString : Val → String
  | .float x => toString x.num ++ "/" ++ toString x.den
  | .str s => s
  | .time t => "t" ++ toString t
  | .int n => toString n

/-- Modelled from the spec: the `str()` projection of a whole container,
keeping the null mask unchanged ("coercion never clears an existing null flag"). -/
def strSlice (vc : valueContainer) : List String :=
  vc.slice.map valToString

/-- embeds `makeIntRange` (src/unnamed/part_000 lines 95-101): the sequence
of ints from `min` (inclusive) to `max` (exclusive). -/
def makeIntRange (min max : Int) : List Int :=
  (List.range (max - min).toNat).map (fun i => min + Int.ofNat i)

/-- ASCII lower-casing of one character, the behaviour of Go's
`strings.ToLower` on the ASCII names the engine works with. -/
def lowerChar (c : Char) : Char :=
  if 65 ≤ c.toNat ∧ c.toNat ≤ 90 then Char.ofNat (c.toNat + 32) else c

/-- ASCII lower-casing of a string (Go's `strings.ToLower`). -/
def lowerStr (s : String) : String :=
  String.mk (s.data.map lowerChar)

/-- embeds `findColWithName` (src/unnamed/part_000 lines 143-150): position of
the first container whose name matches case-insensitively, else an error. -/
def findColWithName (name : String) (cols : List valueContainer) : GoRes Nat :=
  match cols.findIdx? (fun c => lowerStr c.name == lowerStr name) with
  | some j => .ok j
  | none => .goErr ("name (" ++ name ++ ") does not match any existing column")

/-- embeds `valueContainer.subsetRows` (src/unnamed/part_000 lines 656-675),
inner loop: build the subset values and null mask position by position;
an index `≥ len` returns an error, while a read at a negative index is a
runtime panic (the source only checks the upper bound). -/
def subsetRowsAux (slice : List Val) (isNull : List Bool) (l : Nat) :
    List Int → GoRes (List Val × List Bool)
  | [] => .ok ([], [])
  | i :: rest =>
    if i ≥ (l : Int) then
      .goErr ("index out of range (" ++ toString i ++ " > " ++ toString ((l : Int) - 1) ++ ")")
    else
      match goGet isNull i, goGet slice i with
      | some b, some v =>
        match subsetRowsAux slice isNull l rest with
        | .ok (vs, bs) => .ok (v :: vs, b :: bs)
        | .goErr m => .goErr m
        | .crash => .crash
      | _, _ => .crash

/-- embeds `valueContainer.subsetRows` (src/unnamed/part_000 lines 656-675):
on success the container holds only the rows at `index`, in that order. -/
def vcSubsetRows (vc : valueContainer) (index : List Int) : GoRes valueContainer :=
  match subsetRowsAux vc.slice vc.isNull vc.slice.length index with
  | .ok (vs, bs) => .ok { vc with slice := vs, isNull := bs }
  | .goErr m => .goErr m
  | .crash => .crash

/-- embeds `valueContainer.dropRow` (src/unnamed/part_000 lines 1260-1273):
removes the row at `index`; `index ≥ len` is an error, a negative index
panics on the slice expressions `vc.isNull[:index]` / `vc.isNull[index+1:]`. -/
def vcDropRow (vc : valueContainer) (index : Int) : GoRes valueContainer :=
  if index ≥ (vc.slice.length : Int) then
    .goErr ("index out of range (" ++ toString index ++ " > " ++
      toString ((vc.slice.length : Int) - 1) ++ ")")
  else if index < 0 then .crash
  else
    let i := index.toNat
    if i + 1 > vc.isNull.length then .crash
    else .ok { vc with
      slice := vc.slice.take i ++ vc.slice.drop (i + 1),
      isNull := vc.isNull.take i ++ vc.isNull.drop (i + 1) }

/-- embeds `valueContainer.head` (src/unnamed/part_000 lines 691-702):
first `n` rows; slicing past either length is a runtime panic. -/
def vcHead (vc : valueContainer) (n : Nat) : Option valueContainer :=
  if n ≤ vc.slice.length ∧ n ≤ vc.isNull.length then
    some { vc with slice := vc.slice.take n, isNull := vc.isNull.take n }
  else none

/-- embeds `valueContainer.tail` (src/unnamed/part_000 lines 705-716):
last `n` rows; both slice bounds are computed from `len(vc.isNull)`. -/
def vcTail (vc : valueContainer) (n : Nat) : Option valueContainer :=
  let L := vc.isNull.length
  if n ≤ L ∧ L ≤ vc.slice.length then
    some { vc with
      slice := (vc.slice.take L).drop (L - n),
      isNull := vc.isNull.drop (L - n) }
  else none

/-- embeds `valueContainer.rangeSlice` (src/unnamed/part_000 lines 719-730):
rows `first` (inclusive) to `last` (exclusive); bad bounds panic. -/
def vcRangeSlice (vc : valueContainer) (first last : Int) : Option valueContainer :=
  if 0 ≤ first ∧ first ≤ last ∧ last ≤ (vc.slice.length : Int) ∧
      last ≤ (vc.isNull.length : Int) then
    some { vc with
      slice := (vc.slice.take last.toNat).drop first.toNat,
      isNull := (vc.isNull.take last.toNat).drop first.toNat }
  else none

/-- embeds `valueContainer.shift` (src/unnamed/part_000 lines 732-751):
every row reads from `position = i - n`; out-of-window rows become the
kind's zero value flagged null. A null-mask read that is out of bounds
(possible only when the two sequences have different lengths) panics. -/
def vcShift (vc : valueContainer) (n : Int) : Option valueContainer :=
  let L := vc.slice.length
  let rows := (makeIntRange 0 L).mapM (fun i =>
    let position : Int := i - n
    if position < 0 ∨ position ≥ (L : Int) then some (kindZero vc.kind, true)
    else do
      let v ← goGet vc.slice position
      let b ← goGet vc.isNull position
      some (v, b))
  match rows with
  | some rs => some { vc with slice := rs.map Prod.fst, isNull := rs.map Prod.snd }
  | none => none

/-- embeds `valueContainer.append` (src/unnamed/part_000 lines 754-762):
both containers are projected to string form ("lowest common denominator")
and concatenated; the null masks are concatenated unchanged. -/
def vcAppend (vc other : valueContainer) : valueContainer :=
  { kind := .string,
    slice := (strSlice vc).map Val.str ++ (strSlice other).map Val.str,
    isNull := vc.isNull ++ other.isNull,
    name := vc.name }

/-- embeds `valueContainer.copy` (src/unnamed/part_000 lines 1285-1299):
an element-by-element copy of the values and of the null mask. At the
value level the contents are identical; the heap model below captures
that the copy owns fresh backing storage. -/
def vcCopy (vc : valueContainer) : valueContainer :=
  { vc with slice := vc.slice.map id, isNull := vc.isNull.map id }

/-- embeds the `DType` enum from types.go (Float64 / String / DateTime),
the comparison kind a Sorter coerces to. -/
inductive DType where
  | float
  | string
  | dateTime
deriving Repr, DecidableEq

/-- embeds the `Sorter` struct from types.go: container name, direction,
and the data type used solely for comparison. -/
structure Sorter where
  name : String
  descending : Bool
  dtype : DType
deriving Repr, DecidableEq

/-- a comparison key after coercion to the Sorter's DType. -/
inductive SortKey where
  | f (x : ℚ)
  | s (t : String)
  | d (x : ℤ)
deriving Repr, DecidableEq

/-- lexicographic strict comparison of character lists by code point, the
behaviour of Go's `<` on (ASCII) strings. -/
def charListLt : List Char → List Char → Bool
  | [], [] => false
  | [], _ :: _ => true
  | _ :: _, [] => false
  | a :: as, b :: bs =>
    if a.toNat < b.toNat then true
    else if b.toNat < a.toNat then false
    else charListLt as bs

/-- Go's `<` on strings. -/
def strLt (a b : String) : Bool :=
  charListLt a.data b.data

/-- strict less-than on comparison keys (the kind-specific `<`). -/
def keyLt : SortKey → SortKey → Bool
  | .f a, .f b => a < b
  | .s a, .s b => strLt a b
  | .d a, .d b => a < b
  | _, _ => false

/-- Modelled from the spec: coercion of a cell to float64 solely for
comparison (the `float()` conversion helper is not under src/).
Coercion is total; the null mask is carried separately and unchanged. -/
def valToFloat : Val → ℚ
  | .float x => x
  | .int n => (n : ℚ)
  | .time t => (t : ℚ)
  | .str _ => 0

/-- Modelled from the spec: coercion of a cell to a timestamp solely for
comparison (the `dateTime()` conversion helper is not under src/). -/
def valToTime : Val → ℤ
  | .time t => t
  | .int n => n
  | .float x => x.floor
  | .str _ => 0

/-- the comparison key of a cell under a Sorter's DType. -/
def keyOfDType : DType → Val → SortKey
  | .float, v => .f (valToFloat v)
  | .string, v => .s (valToString v)
  | .dateTime, v => .d (valToTime v)

/-- a row of one of the typed sort containers (floatValueContainer and
friends from types.go): coerced comparison key, null flag, carried index.
`sort.Stable` swaps all three fields of a row together. -/
abbrev SortRow := SortKey × Bool × Int

/-- Modelled from the spec: the `Less` of the typed sort containers
(their `sort.Interface` methods are not under src/) — ascending by coerced
value with null rows ordered after all non-null rows, matching the
spec's "Null values are always sorted to the bottom". -/
def rowLt (a b : SortRow) : Bool :=
  if a.2.1 then false
  else if b.2.1 then true
  else keyLt a.1 b.1

/-- stable insertion step: `x` (an earlier element) is placed before the
first element that is not strictly less than it, so that ties keep their
original relative order, as `sort.Stable` guarantees. -/
def insertStable {α : Type} (lt : α → α → Bool) (x : α) : List α → List α
  | [] => [x]
  | y :: ys => if lt y x then y :: insertStable lt x ys else x :: y :: ys

/-- stable sort by a strict comparison, modelling Go's `sort.Stable`. -/
def stableSort {α : Type} (lt : α → α → Bool) : List α → List α
  | [] => []
  | x :: xs => insertStable lt x (stableSort lt xs)

/-- pairs three equal-length Go slices into rows (the parallel arrays of a
typed sort container). -/
def zip3 {α β γ : Type} : List α → List β → List γ → List (α × β × γ)
  | a :: as, b :: bs, c :: cs => (a, b, c) :: zip3 as bs cs
  | _, _, _ => []

/-- embeds `valueContainer.sort` (src/unnamed/part_000 lines 965-1014):
coerce to the requested kind, stable-sort the (value, isNull, index) rows
(descending reverses the comparison), then move every null row's index to
the bottom as a trailing block (source lines 1005-1013). -/
def vcSort (vc : valueContainer) (dtype : DType) (descending : Bool)
    (index : List Int) : List Int :=
  let keys := vc.slice.map (keyOfDType dtype)
  let rows := zip3 keys vc.isNull index
  let lt := if descending then (fun a b => rowLt b a) else rowLt
  let sorted := stableSort lt rows
  let notNulls := (sorted.filter (fun t => !t.2.1)).map (fun t => t.2.2)
  let nulls := (sorted.filter (fun t => t.2.1)).map (fun t => t.2.2)
  notNulls ++ nulls

/-- Modelled from the spec: `sortContainers` (called at dataframe.go line
2418 but not under src/) — start from the identity row order and apply the
Sorter specs in reverse order, each pass a stable sort of the named
container (the present `valueContainer.sort` embedded above), so that the
first spec is the most significant key. A name that matches no container
is an error. -/
def sortContainersLoop (containers : List valueContainer) :
    List Sorter → List Int → GoRes (List Int)
  | [], index => .ok index
  | s :: rest, index =>
    match sortContainersLoop containers rest index with
    | .ok index2 =>
      match findColWithName s.name containers with
      | .ok pos =>
        match containers.get? pos with
        | some vc => .ok (vcSort vc s.dtype s.descending index2)
        | none => .crash
      | .goErr m => .goErr m
      | .crash => .crash
    | .goErr m => .goErr m
    | .crash => .crash

/-- Modelled from the spec: `sortContainers` entry — the initial index is
the identity range over the first container's length. -/
def sortContainers (containers : List valueContainer) (sorters : List Sorter) :
    GoRes (List Int) :=
  match containers with
  | [] => .crash
  | c :: _ => sortContainersLoop containers sorters (makeIntRange 0 c.slice.length)

/-- a row of the floatValueContainer used by `rank`: float value, null
flag, carried original position. -/
abbrev FRow := ℚ × Bool × Int

/-- Modelled from the spec: `floatValueContainer`'s `Less` (its
`sort.Interface` methods are not under src/) — ascending by value with
null rows ordered after all non-null rows, so that nulls are excluded
from the tie computation as the spec requires. -/
def frowLt (a b : FRow) : Bool :=
  if a.2.1 then false
  else if b.2.1 then true
  else a.1 < b.1

/-- Go write `ret[i] = v` with an `int` index; in `rank` the positions come
from `makeIntRange` and are always in range, so the out-of-range case
(which would panic in Go) is modelled as a no-op that is never reached. -/
def listSetQ (xs : List ℚ) (i : Int) (v : ℚ) : List ℚ :=
  if i < 0 then xs else xs.set i.toNat v

/-- embeds the write-back loop of `floatValueContainer.rank`
(src/unnamed/part_000 lines 1722-1748): walk the sorted rows with the
running offset; a null row is written the sentinel -999 and decrements the
offset; a duplicate of the previous sorted value copies that value's
already-written rank and decrements the offset; otherwise the naive rank
`i+1` is corrected by the offset. -/
def rankLoop : List FRow → Nat → ℚ → Option FRow → List ℚ → List ℚ
  | [], _, _, _, ret => ret
  | t :: rest, i, offset, prev, ret =>
    let originalPosition := t.2.2
    let rank : ℚ := (i : ℚ) + 1
    if t.2.1 then
      rankLoop rest (i + 1) (offset - 1) (some t) (listSetQ ret originalPosition (-999))
    else if i = 0 then
      rankLoop rest (i + 1) offset (some t) (listSetQ ret originalPosition rank)
    else
      match prev with
      | some p =>
        if t.1 = p.1 then
          rankLoop rest (i + 1) (offset - 1) (some t)
            (listSetQ ret originalPosition ((goGet ret p.2.2).getD 0))
        else
          rankLoop rest (i + 1) offset (some t) (listSetQ ret originalPosition (rank + offset))
      | none => ret

/-- embeds `floatValueContainer.rank` (src/unnamed/part_000 lines
1716-1750) for the container built by the `rank` wrapper at line 1763:
values and null mask with `index = makeIntRange(0, len)`; the rows are
stable-sorted and the ranks written back to original positions. -/
def floatRank (vals : List ℚ) (isNull : List Bool) : List ℚ :=
  let rows := zip3 vals isNull (makeIntRange 0 vals.length)
  let sorted := stableSort frowLt rows
  rankLoop sorted 0 0 none (List.replicate vals.length 0)

/-- embeds the `rank` wrapper (src/unnamed/part_000 lines 1753-1765): the
first `len(index)` values and null flags are copied positionally (the
source reads `vals[i]`, not `vals[index[i]]`) and ranked; copying past
either length would panic. -/
def goRank (vals : List ℚ) (isNull : List Bool) (index : List Int) : Option (List ℚ) :=
  if index.length ≤ vals.length ∧ index.length ≤ isNull.length then
    some (floatRank (vals.take index.length) (isNull.take index.length))
  else none

/-- embeds `sum` (src/unnamed/part_000 lines 1403-1416): sum of the
non-null values at the index positions; if none is valid the result is
`(0, true)`, i.e. flagged null. -/
def goSum : List ℚ → List Bool → List Int → ℚ → Bool → Option (ℚ × Bool)
  | _, _, [], acc, valid => some (if valid then (acc, false) else ((0 : ℚ), true))
  | vals, isNull, i :: rest, acc, valid =>
    match goGet isNull i with
    | none => none
    | some true => goSum vals isNull rest acc valid
    | some false =>
      match goGet vals i with
      | none => none
      | some v => goSum vals isNull rest (acc + v) true

/-- embeds `mean` (src/unnamed/part_000 lines 1421-1436): running sum and
count of the non-null values; all-null yields `(0, true)`. -/
def goMean : List ℚ → List Bool → List Int → ℚ → ℚ → Bool → Option (ℚ × Bool)
  | _, _, [], acc, counter, valid =>
    some (if valid then (acc / counter, false) else ((0 : ℚ), true))
  | vals, isNull, i :: rest, acc, counter, valid =>
    match goGet isNull i with
    | none => none
    | some true => goMean vals isNull rest acc counter valid
    | some false =>
      match goGet vals i with
      | none => none
      | some v => goMean vals isNull rest (acc + v) (counter + 1) true

/-- Modelled placeholder for `math.NaN()`: real NaN is not representable
over ℚ; no claim under verification inspects the magnitude returned in a
null-flagged result, only the flag itself. -/
def goNaN : ℚ := 0

/-- embeds `median` (src/unnamed/part_000 lines 1441-1461): collect the
non-null values at the index positions, sort ascending, and take the
middle (average of the two middle values on even count). An empty
collection yields `(NaN, true)`. -/
def goMedian (vals : List ℚ) (isNull : List Bool) (index : List Int) : Option (ℚ × Bool) :=
  let collected := index.mapM (fun i => do
    let b ← goGet isNull i
    if b then some none
    else do
      let v ← goGet vals i
      some (some v))
  match collected with
  | none => none
  | some opts =>
    let data := (opts.filterMap id).mergeSort (fun a b => decide (a ≤ b))
    if data.length = 0 then some (goNaN, true)
    else
      let mNumber := data.length / 2
      if data.length % 2 ≠ 0 then some (data.getD mNumber 0, false)
      else some ((data.getD (mNumber - 1) 0 + data.getD mNumber 0) / 2, false)

/-- Modelled placeholder for `math.Pow(x, 0.5)` in `std`: a real square
root is not representable over ℚ; no claim under verification inspects the
magnitude of a standard deviation, only its null flag. -/
def goSqrt (x : ℚ) : ℚ := x

/-- embeds `std` (src/unnamed/part_000 lines 1466-1481): population
variance around `mean` over the non-null values; all-null yields `(0, true)`. -/
def goStdLoop : List ℚ → List Bool → List Int → ℚ → ℚ → ℚ → Bool → Option (ℚ × Bool)
  | _, _, [], _m, variance, counter, valid =>
    some (if valid then (goSqrt (variance / counter), false) else ((0 : ℚ), true))
  | vals, isNull, i :: rest, m, variance, counter, valid =>
    match goGet isNull i with
    | none => none
    | some true => goStdLoop vals isNull rest m variance counter valid
    | some false =>
      match goGet vals i with
      | none => none
      | some v => goStdLoop vals isNull rest m (variance + (v - m) ^ 2) (counter + 1) true

/-- embeds `std` (src/unnamed/part_000 lines 1466-1481), entry point. -/
def goStd (vals : List ℚ) (isNull : List Bool) (index : List Int) : Option (ℚ × Bool) :=
  match goMean vals isNull index 0 0 false with
  | none => none
  | some (m, _) => goStdLoop vals isNull index m 0 0 false

/-- embeds `count` (src/unnamed/part_000 lines 1485-1498): number of
non-null values at the index positions; all-null yields `(0, true)`. -/
def goCount : List ℚ → List Bool → List Int → Nat → Bool → Option (ℚ × Bool)
  | _, _, [], counter, valid =>
    some (if valid then ((counter : ℚ), false) else ((0 : ℚ), true))
  | vals, isNull, i :: rest, counter, valid =>
    match goGet isNull i with
    | none => none
    | some true => goCount vals isNull rest counter valid
    | some false => goCount vals isNull rest (counter + 1) true

/-- embeds `min` (src/unnamed/part_000 lines 1502-1517): the accumulator
starts at `math.Inf(0)`, modelled as `none`; all-null yields `(0, true)`. -/
def goMin : List ℚ → List Bool → List Int → Option ℚ → Bool → Option (ℚ × Bool)
  | _, _, [], acc, valid =>
    some (if valid then (acc.getD 0, false) else ((0 : ℚ), true))
  | vals, isNull, i :: rest, acc, valid =>
    match goGet isNull i with
    | none => none
    | some true => goMin vals isNull rest acc valid
    | some false =>
      match goGet vals i with
      | none => none
      | some v =>
        let acc2 := match acc with
          | none => some v
          | some m => if v < m then some v else some m
        goMin vals isNull rest acc2 true

/-- embeds `max` (src/unnamed/part_000 lines 1521-1536): the accumulator
starts at `math.Inf(-1)`, modelled as `none`; all-null yields `(0, true)`. -/
def goMax : List ℚ → List Bool → List Int → Option ℚ → Bool → Option (ℚ × Bool)
  | _, _, [], acc, valid =>
    some (if valid then (acc.getD 0, false) else ((0 : ℚ), true))
  | vals, isNull, i :: rest, acc, valid =>
    match goGet isNull i with
    | none => none
    | some true => goMax vals isNull rest acc valid
    | some false =>
      match goGet vals i with
      | none => none
      | some v =>
        let acc2 := match acc with
          | none => some v
          | some m => if v > m then some v else some m
        goMax vals isNull rest acc2 true

/-- the `time.Date(10000, 1, 1, ...)` sentinel that `earliest` starts
from, as a Unix timestamp. -/
def earliestInitSentinel : ℤ := 253402300800

/-- embeds `earliest` (src/unnamed/part_000 lines 1540-1555): minimum
timestamp among the non-null values, starting from the year-10000
sentinel; all-null yields the zero time flagged null. -/
def goEarliest : List ℤ → List Bool → List Int → ℤ → Bool → Option (ℤ × Bool)
  | _, _, [], acc, valid =>
    some (if valid then (acc, false) else ((0 : ℤ), true))
  | vals, isNull, i :: rest, acc, valid =>
    match goGet isNull i with
    | none => none
    | some true => goEarliest vals isNull rest acc valid
    | some false =>
      match goGet vals i with
      | none => none
      | some v => goEarliest vals isNull rest (if v < acc then v else acc) true

/-- embeds `latest` (src/unnamed/part_000 lines 1559-1574): maximum
timestamp among the non-null values, starting from the zero time;
all-null yields the zero time flagged null. -/
def goLatest : List ℤ → List Bool → List Int → ℤ → Bool → Option (ℤ × Bool)
  | _, _, [], acc, valid =>
    some (if valid then (acc, false) else ((0 : ℤ), true))
  | vals, isNull, i :: rest, acc, valid =>
    match goGet isNull i with
    | none => none
    | some true => goLatest vals isNull rest acc valid
    | some false =>
      match goGet vals i with
      | none => none
      | some v => goLatest vals isNull rest (if v > acc then v else acc) true

/-- embeds `first` (src/unnamed/part_000 lines 1577-1584): the first
non-null value at the index positions as a string; all-null yields
`("", true)`. -/
def goFirst : List String → List Bool → List Int → Option (String × Bool)
  | _, _, [] => some ("", true)
  | vals, isNull, i :: rest =>
    match goGet isNull i with
    | none => none
    | some true => goFirst vals isNull rest
    | some false =>
      match goGet vals i with
      | none => none
      | some v => some (v, false)

/-- embeds `last` (src/unnamed/part_000 lines 1587-1594): the last
non-null value, found by walking the index positions from the end. -/
def goLast (vals : List String) (isNull : List Bool) (index : List Int) :
    Option (String × Bool) :=
  goFirst vals isNull index.reverse

/-- Modelled placeholder for `empty{}.float64()` (the generated `empty`
helper is not under src/): the unspecified placeholder value paired with
the null flag for an all-null partition. -/
def emptyFloat64 : ℚ := 0

/-- embeds `convertSimplifiedFloat64Func` (src/unnamed/part_000 lines
1842-1861): the generic reducer collects the non-null values at the index
positions and applies the user function; an all-null partition yields the
placeholder flagged null without calling the user function. -/
def convertSimplifiedFloat64Func (simplifiedFn : List ℚ → ℚ)
    (vals : List ℚ) (isNull : List Bool) (index : List Int) : Option (ℚ × Bool) :=
  let collected := index.mapM (fun i => do
    let b ← goGet isNull i
    if b then some none
    else do
      let v ← goGet vals i
      some (some v))
  match collected with
  | none => none
  | some opts =>
    let inputVals := opts.filterMap id
    if inputVals.length = 0 then some (emptyFloat64, true)
    else some (simplifiedFn inputVals, false)

/-- association-list lookup, modelling a read from a Go `map` keyed by string. -/
def lookupA {α : Type} : List (String × α) → String → Option α
  | [], _ => none
  | (k, v) :: rest, key => if k = key then some v else lookupA rest key

/-- association-list update, modelling a write to a Go `map`: replace the
entry if the key exists, append it otherwise. -/
def setA {α : Type} : List (String × α) → String → α → List (String × α)
  | [], key, nv => [(key, nv)]
  | (k, v) :: rest, key, nv =>
    if k = key then (key, nv) :: rest else (k, v) :: setA rest key nv

/-- the state built by the `labelsToMap` loop: composite key → all row
positions, composite key → first row position, keys in first-appearance
order, key → position in `orderedKeys`, and row → group position. -/
structure LTMState where
  allIndex : List (String × List Nat)
  firstIndex : List (String × Nat)
  orderedKeys : List String
  orderedKeyIndex : List (String × Nat)
  origToUnique : List (Nat × Nat)
deriving Repr, DecidableEq

/-- embeds one iteration of the `labelsToMap` row loop
(src/unnamed/part_000 lines 1073-1088): a key not yet in the map starts
its position list, records its first position and is appended to
`orderedKeys`; a known key appends the position to its list. -/
def ltmStep (keyOf : Nat → String) (s : LTMState) (i : Nat) : LTMState :=
  let key := keyOf i
  match lookupA s.allIndex key with
  | none =>
    let s2 : LTMState :=
      { allIndex := s.allIndex ++ [(key, [i])],
        firstIndex := s.firstIndex ++ [(key, i)],
        orderedKeys := s.orderedKeys ++ [key],
        orderedKeyIndex := s.orderedKeyIndex ++ [(key, s.orderedKeys.length)],
        origToUnique := s.origToUnique }
    { s2 with origToUnique :=
        s2.origToUnique ++ [(i, (lookupA s2.orderedKeyIndex key).getD 0)] }
  | some xs =>
    let s2 := { s with allIndex := setA s.allIndex key (xs ++ [i]) }
    { s2 with origToUnique :=
        s2.origToUnique ++ [(i, (lookupA s2.orderedKeyIndex key).getD 0)] }

/-- the empty state the `labelsToMap` loop starts from. -/
def ltmInit : LTMState :=
  { allIndex := [], firstIndex := [], orderedKeys := [],
    orderedKeyIndex := [], origToUnique := [] }

/-- the composite key of row `i`: the per-container string projections
joined with the reserved separator "|" (src/unnamed/part_000 lines
1074-1078). A row read past a projected column's length would panic in Go
and is modelled by the empty-string default, unreachable when all
referenced containers share the iterated length. -/
def compositeKey (labelStrings : List (List String)) (i : Nat) : String :=
  String.intercalate "|" (labelStrings.map (fun col => col.getD i ""))

/-- embeds `labelsToMap` (src/unnamed/part_000 lines 1057-1090): project
every referenced container to strings, then fold the row loop over
`len(labelStrings[0])` rows. Reading a container at an out-of-range
position, or reading `labelStrings[0]` of an empty reference list, panics. -/
def labelsToMap (labels : List valueContainer) (index : List Int) : Option LTMState :=
  match index.mapM (fun j => (goGet labels j).map strSlice) with
  | none => none
  | some labelStrings =>
    match labelStrings with
    | [] => none
    | firstCol :: _ =>
      some ((List.range firstCol.length).foldl
        (ltmStep (compositeKey labelStrings)) ltmInit)

/-- embeds `concatenateLabelsToStrings` (src/unnamed/part_000 lines
1031-1050): the source projects `labels[j]` for `j < len(index)` (note:
the position `j`, not `index[j]`) and joins each row's components with "|". -/
def concatenateLabelsToStrings (labels : List valueContainer) (index : List Int) :
    Option (List String) :=
  match (List.range index.length).mapM (fun j => (labels.get? j).map strSlice) with
  | none => none
  | some labelStrings =>
    match labelStrings with
    | [] => none
    | firstCol :: _ =>
      some ((List.range firstCol.length).map (compositeKey labelStrings))

/-- embeds `matchLabelPositions` (src/unnamed/part_000 lines 1093-1103):
the matched first-occurrence row for each key, or -1 on a miss. -/
def matchLabelPositions (labels1 : List String) (labels2 : List (String × Nat)) :
    List Int :=
  labels1.map (fun key =>
    match lookupA labels2 key with
    | some v => (v : Int)
    | none => -1)

/-- embeds the `Series` struct from types.go (values, labels, sticky error). -/
structure Series where
  values : valueContainer
  labels : List valueContainer
  err : Option String
deriving Repr, DecidableEq

/-- embeds the `DataFrame` struct from types.go (labels, values, name,
sticky error, column level names). -/
structure DataFrame where
  labels : List valueContainer
  values : List valueContainer
  name : String
  err : Option String
  colLevelNames : List String
deriving Repr, DecidableEq

/-- embeds `lookupWithAnchor` (src/unnamed/part_000 lines 1185-1210): build
the composite-key map of the secondary labels, match every primary row,
and on a hit copy the secondary value — but, as written at line 1199, read
the secondary null mask at the primary row position `i`, not at
`matchedIndex`; a miss emits the kind's zero value flagged null. -/
def lookupWithAnchor (name : String) (labels1 : List valueContainer) (leftOn : List Int)
    (values2 : valueContainer) (labels2 : List valueContainer) (rightOn : List Int) :
    Option Series := do
  let toLookup ← concatenateLabelsToStrings labels1 leftOn
  let s ← labelsToMap labels2 rightOn
  let matched := matchLabelPositions toLookup s.firstIndex
  let cells ← (List.range matched.length).mapM (fun i => do
    let matchedIndex ← matched.get? i
    if matchedIndex ≠ -1 then do
      let v ← goGet values2.slice matchedIndex
      let b ← goGet values2.isNull (i : Int)
      some (v, b)
    else
      some (kindZero values2.kind, true))
  some { values := { kind := values2.kind, slice := cells.map Prod.fst,
                     isNull := cells.map Prod.snd, name := name },
         labels := labels1, err := none }

/-- embeds `lookupDataFrameWithAnchor` (src/unnamed/part_000 lines
1215-1258): like the Series variant but over every non-excluded secondary
column, and with the null status correctly read at `matchedIndex`
(line 1243). -/
def lookupDataFrameWithAnchor (name : String) (colLevelNames : List String)
    (mergedLabelsCols1 : List valueContainer) (labels1 : List valueContainer)
    (leftOn : List Int) (values2 : List valueContainer)
    (mergedLabelsCols2 : List valueContainer) (rightOn : List Int)
    (exclude : List String) : Option DataFrame := do
  let toLookup ← concatenateLabelsToStrings mergedLabelsCols1 leftOn
  let s ← labelsToMap mergedLabelsCols2 rightOn
  let matched := matchLabelPositions toLookup s.firstIndex
  let retVals ← (values2.filter (fun c => !(exclude.contains c.name))).mapM (fun c => do
    let cells ← matched.mapM (fun matchedIndex =>
      if matchedIndex ≠ -1 then do
        let v ← goGet c.slice matchedIndex
        let b ← goGet c.isNull matchedIndex
        some (v, b)
      else
        some (kindZero c.kind, true))
    some { kind := c.kind, slice := cells.map Prod.fst,
           isNull := cells.map Prod.snd, name := c.name })
  some { values := retVals, labels := labels1, name := name, err := none,
         colLevelNames := colLevelNames }

/-- embeds `DataFrame.resetWithError` (src/unnamed/part_000 lines 22-28):
the sticky-error state — all internals cleared, only the error kept. -/
def resetWithError (_df : DataFrame) (e : String) : DataFrame :=
  { labels := [], values := [], name := "", err := some e, colLevelNames := [] }

/-- embeds `DataFrame.Len` (dataframe.go lines 1168-1170): the length of
the first value container; reading `df.values[0]` of an empty values list
is a runtime panic, modelled as `none`. -/
def dfLen (df : DataFrame) : Option Nat :=
  (df.values.get? 0).map (fun c => c.slice.length)

/-- embeds `DataFrame.Err` (dataframe.go lines 1173-1175). -/
def dfErr (df : DataFrame) : Option String :=
  df.err

/-- embeds the values loop of `DataFrameMutator.Subset` (dataframe.go
lines 1230-1236): subset each value container; the first error aborts
(the caller then resets the frame), a panic propagates. -/
def mutSubsetValuesLoop : List valueContainer → List Int → GoRes (List valueContainer)
  | [], _ => .ok []
  | vc :: rest, index =>
    match vcSubsetRows vc index with
    | .ok vc2 =>
      match mutSubsetValuesLoop rest index with
      | .ok vcs => .ok (vc2 :: vcs)
      | .goErr m => .goErr m
      | .crash => .crash
    | .goErr m => .goErr m
    | .crash => .crash

/-- embeds the labels loop of `DataFrameMutator.Subset` (dataframe.go
lines 1237-1239): the error return of `subsetRows` is discarded (a failing
container is left unchanged), but a panic still propagates. -/
def mutSubsetLabelsLoop : List valueContainer → List Int → GoRes (List valueContainer)
  | [], _ => .ok []
  | vc :: rest, index =>
    match vcSubsetRows vc index with
    | .ok vc2 =>
      match mutSubsetLabelsLoop rest index with
      | .ok vcs => .ok (vc2 :: vcs)
      | .goErr m => .goErr m
      | .crash => .crash
    | .goErr _ =>
      match mutSubsetLabelsLoop rest index with
      | .ok vcs => .ok (vc :: vcs)
      | .goErr m => .goErr m
      | .crash => .crash
    | .crash => .crash

/-- embeds `DataFrameMutator.Subset` (dataframe.go lines 1229-1241): an
error from a value container resets the frame to the sticky-error state;
the new receiver state is returned (`.ok`), a runtime panic is `.crash`. -/
def dfMutSubset (df : DataFrame) (index : List Int) : GoRes DataFrame :=
  match mutSubsetValuesLoop df.values index with
  | .goErr m => .ok (resetWithError df ("Subset(): " ++ m))
  | .crash => .crash
  | .ok newValues =>
    match mutSubsetLabelsLoop df.labels index with
    | .ok newLabels => .ok { df with values := newValues, labels := newLabels }
    | .goErr m => .goErr m
    | .crash => .crash

/-- embeds the values loop of `DataFrameMutator.DropRow` (dataframe.go
lines 1739-1745). -/
def mutDropRowValuesLoop : List valueContainer → Int → GoRes (List valueContainer)
  | [], _ => .ok []
  | vc :: rest, index =>
    match vcDropRow vc index with
    | .ok vc2 =>
      match mutDropRowValuesLoop rest index with
      | .ok vcs => .ok (vc2 :: vcs)
      | .goErr m => .goErr m
      | .crash => .crash
    | .goErr m => .goErr m
    | .crash => .crash

/-- embeds the labels loop of `DataFrameMutator.DropRow` (dataframe.go
lines 1746-1748): errors discarded, panics propagate. -/
def mutDropRowLabelsLoop : List valueContainer → Int → GoRes (List valueContainer)
  | [], _ => .ok []
  | vc :: rest, index =>
    match vcDropRow vc index with
    | .ok vc2 =>
      match mutDropRowLabelsLoop rest index with
      | .ok vcs => .ok (vc2 :: vcs)
      | .goErr m => .goErr m
      | .crash => .crash
    | .goErr _ =>
      match mutDropRowLabelsLoop rest index with
      | .ok vcs => .ok (vc :: vcs)
      | .goErr m => .goErr m
      | .crash => .crash
    | .crash => .crash

/-- embeds `DataFrameMutator.DropRow` (dataframe.go lines 1738-1750). -/
def dfMutDropRow (df : DataFrame) (index : Int) : GoRes DataFrame :=
  match mutDropRowValuesLoop df.values index with
  | .goErr m => .ok (resetWithError df ("DropRow(): " ++ m))
  | .crash => .crash
  | .ok newValues =>
    match mutDropRowLabelsLoop df.labels index with
    | .ok newLabels => .ok { df with values := newValues, labels := newLabels }
    | .goErr m => .goErr m
    | .crash => .crash

/-- embeds `DataFrameMutator.Sort` (dataframe.go lines 2409-2425): an
empty spec list or a failed `sortContainers` resets the frame to the
sticky-error state, otherwise the computed row order is applied in place
via `Subset`. -/
def dfMutSort (df : DataFrame) (sorters : List Sorter) : GoRes DataFrame :=
  if sorters.length = 0 then
    .ok (resetWithError df "Sort(): must supply at least one Sorter")
  else
    match sortContainers (df.labels ++ df.values) sorters with
    | .goErr m => .ok (resetWithError df ("Sort(): " ++ m))
    | .crash => .crash
    | .ok newIndex => dfMutSubset df newIndex

/-- value-level contents of `DataFrame.Copy` (dataframe.go lines 752-767):
every container and the column level names are copied element by element. -/
def dfCopyValue (df : DataFrame) : DataFrame :=
  { labels := df.labels.map vcCopy, values := df.values.map vcCopy,
    name := df.name, err := df.err, colLevelNames := df.colLevelNames.map id }

/-- embeds `DataFrame.Sort` (dataframe.go lines 2399-2403). The source
reads `df.Copy()` and discards the result instead of rebinding `df`, so
the in-place sort then runs on the receiver itself and the receiver is
returned. The embedding returns the pair (receiver state after the call,
returned frame); both are the same mutated frame. -/
def dfSortEntry (df : DataFrame) (sorters : List Sorter) : GoRes (DataFrame × DataFrame) :=
  let _discarded := dfCopyValue df
  match dfMutSort df sorters with
  | .ok df2 => .ok (df2, df2)
  | .goErr m => .goErr m
  | .crash => .crash

/-- embeds `subsetCols` (src/unnamed/part_000 lines 679-688), the
container-selection helper called `subsetContainers` at its dataframe.go
call sites: positions `≥ len` are an error, negative positions panic. -/
def subsetContainers (cols : List valueContainer) : List Int → GoRes (List valueContainer)
  | [] => .ok []
  | i :: rest =>
    if i ≥ (cols.length : Int) then
      .goErr ("index out of range (" ++ toString i ++ " > " ++
        toString ((cols.length : Int) - 1) ++ ")")
    else
      match goGet cols i with
      | some c =>
        match subsetContainers cols rest with
        | .ok cs => .ok (c :: cs)
        | .goErr m => .goErr m
        | .crash => .crash
      | none => .crash

/-- Modelled from the spec: `reduceContainers` (called at dataframe.go
line 2451 but not under src/) — group the rows of the given key containers
by composite key using the present `labelsToMap` fold, returning the
grouped label containers (one row per group, at the key's first
occurrence), the row-position lists parallel to `orderedKeys`, and
`orderedKeys` itself in first-occurrence order. -/
def reduceContainers (containers : List valueContainer) :
    Option (List valueContainer × List (List Nat) × List String) :=
  match labelsToMap containers (makeIntRange 0 containers.length) with
  | none => none
  | some s =>
    let rowIndices := s.orderedKeys.map (fun k => (lookupA s.allIndex k).getD [])
    let firstRows := s.orderedKeys.map (fun k => ((lookupA s.firstIndex k).getD 0 : Int))
    match containers.mapM (fun c =>
      match vcSubsetRows c firstRows with
      | .ok c2 => some c2
      | .goErr _ => none
      | .crash => none) with
    | some newLabels => some (newLabels, rowIndices, s.orderedKeys)
    | none => none

/-- embeds the `GroupedDataFrame` struct from types.go. -/
structure GroupedDataFrame where
  orderedKeys : List String
  rowIndices : List (List Nat)
  labels : List valueContainer
  df : DataFrame
  err : Option String
deriving Repr, DecidableEq

/-- embeds `DataFrame.groupby` (dataframe.go lines 2448-2462): select the
key containers from the merged labels+columns (the selection error is
discarded by the source, leaving nil containers) and reduce them. -/
def dfGroupby (df : DataFrame) (index : List Int) : Option GroupedDataFrame :=
  let merged := df.labels ++ df.values
  match subsetContainers merged index with
  | .crash => none
  | .goErr _ =>
    match reduceContainers [] with
    | some (newLabels, rowIndices, orderedKeys) =>
      some { orderedKeys := orderedKeys, rowIndices := rowIndices,
             labels := newLabels, df := df, err := none }
    | none => none
  | .ok containers =>
    match reduceContainers containers with
    | some (newLabels, rowIndices, orderedKeys) =>
      some { orderedKeys := orderedKeys, rowIndices := rowIndices,
             labels := newLabels, df := df, err := none }
    | none => none

/-!
Heap model. Go's `*valueContainer` pointers make aliasing observable:
`head`/`tail` share backing storage with the receiver while `copy`
allocates. The claims about ownership independence are stated against
this small heap: a cell is the backing storage of one container, a
container is a reference into the heap, and `copy` appends fresh cells. -/

/-- the backing storage of one container: typed values plus null mask. -/
structure Cell where
  kind : DKind
  slice : List Val
  isNull : List Bool
deriving Repr, DecidableEq

/-- the heap: cells addressed by position. -/
abbrev Heap := List Cell

/-- a `*valueContainer`: a reference to its backing cell plus its name. -/
structure HVC where
  ref : Nat
  name : String
deriving Repr, DecidableEq

/-- a `*DataFrame` at the heap level. -/
structure HDataFrame where
  labels : List HVC
  values : List HVC
  name : String
  err : Option String
  colLevelNames : List String
deriving Repr, DecidableEq

/-- dereference a container's backing cell. -/
def readCell (h : Heap) (r : Nat) : Option Cell :=
  h.get? r

/-- embeds `valueContainer.copy` (src/unnamed/part_000 lines 1285-1299) at
the heap level: `reflect.MakeSlice` plus the element loop and
`make`+`copy` allocate fresh backing arrays, so the copy is a fresh cell;
a dangling reference would be a Go impossibility and leaves the heap
unchanged (unreachable under the validity hypothesis of every theorem). -/
def copyCellH (h : Heap) (c : HVC) : Heap × HVC :=
  match readCell h c.ref with
  | some cell =>
    (h ++ [{ cell with slice := cell.slice.map id, isNull := cell.isNull.map id }],
     { ref := h.length, name := c.name })
  | none => (h, c)

/-- Modelled from the spec: `copyContainers` (called at dataframe.go lines
759-760 but not under src/) — copy each container in order via the present
`valueContainer.copy`, exactly what the `DataFrame.Copy` unit test pins
down ("retained reference to original values" must not happen). -/
def copyContainersH (h : Heap) : List HVC → Heap × List HVC
  | [] => (h, [])
  | c :: cs =>
    let p1 := copyCellH h c
    let p2 := copyContainersH p1.1 cs
    (p2.1, p1.2 :: p2.2)

/-- embeds `DataFrame.Copy` (dataframe.go lines 752-767) at the heap
level: copy the values then the labels into fresh cells and rebuild the
struct with a copied column-level-name list. -/
def dfCopyH (h : Heap) (df : HDataFrame) : Heap × HDataFrame :=
  let pv := copyContainersH h df.values
  let pl := copyContainersH pv.1 df.labels
  (pl.1, { labels := pl.2, values := pv.2, name := df.name, err := df.err,
           colLevelNames := df.colLevelNames.map id })

/-- a raw heap write of one value cell entry, modelling
`container.slice[i] = v` done by a caller that owns the container. -/
def writeValH (h : Heap) (r : Nat) (i : Nat) (v : Val) : Heap :=
  match readCell h r with
  | some cell => h.set r { cell with slice := cell.slice.set i v }
  | none => h

/-- a raw heap write of one null-mask entry, modelling
`container.isNull[i] = b`. -/
def writeNullH (h : Heap) (r : Nat) (i : Nat) (b : Bool) : Heap :=
  match readCell h r with
  | some cell => h.set r { cell with isNull := cell.isNull.set i b }
  | none => h

/-- one mutation a caller can perform on a frame it owns: write a value or
a null flag of the k-th value column or the k-th label level. -/
inductive Mut where
  | mval (k i : Nat) (v : Val)
  | mnull (k i : Nat) (b : Bool)
  | mlabelval (k i : Nat) (v : Val)
  | mlabelnull (k i : Nat) (b : Bool)
deriving Repr, DecidableEq

/-- apply one mutation to the containers of `df` in heap `h`. -/
def applyMut (df : HDataFrame) (h : Heap) : Mut → Heap
  | .mval k i v =>
    match df.values.get? k with
    | some c => writeValH h c.ref i v
    | none => h
  | .mnull k i b =>
    match df.values.get? k with
    | some c => writeNullH h c.ref i b
    | none => h
  | .mlabelval k i v =>
    match df.labels.get? k with
    | some c => writeValH h c.ref i v
    | none => h
  | .mlabelnull k i b =>
    match df.labels.get? k with
    | some c => writeNullH h c.ref i b
    | none => h

/-!
Spec-side characterizations. These definitions follow the words of the
specification (not the source); the theorems below compare the embedded
source code against them. -/

/-- spec-side: the distinct elements of a list in first-occurrence order
("orderedKeys reflects strictly first-occurrence order of the input rows"). -/
def firstOccurrences : List String → List String
  | [] => []
  | a :: l => a :: (firstOccurrences l).filter (fun b => b ≠ a)

/-- spec-side: the values of the non-null rows of a float column, in row
order. -/
def validValues (vals : List ℚ) (isNull : List Bool) : List ℚ :=
  ((vals.zip isNull).filter (fun x => !x.2)).map Prod.fst

/-- spec-side: the number of distinct values of `qs` strictly below `v`;
`1 + dcount` is the dense rank of `v`. -/
def dcount (qs : List ℚ) (v : ℚ) : Nat :=
  ((qs.filter (fun w => w < v)).dedup).length

/-- spec-side, following the claim's words "min-rank-with-gaps"
(competition ranking): one more than the number of valid values strictly
below `v`, counted with multiplicity, so that ties leave gaps. -/
def minRankGaps (vals : List ℚ) (isNull : List Bool) (v : ℚ) : ℚ :=
  1 + ((validValues vals isNull).filter (fun w => w < v)).length

/-!
Concrete frames used by the closed theorems below. -/

/-- a two-row demonstration frame: one float column "a" = [2, 1] with
default int labels [0, 1]. -/
def dfDemo : DataFrame :=
  { labels := [{ kind := .int, slice := [.int 0, .int 1],
                 isNull := [false, false], name := "*0" }],
    values := [{ kind := .float, slice := [.float 2, .float 1],
                 isNull := [false, false], name := "a" }],
    name := "demo", err := none, colLevelNames := ["*0"] }

/-- the Sorter used with `dfDemo`: column "a", ascending, as float. -/
def sorterDemo : Sorter :=
  { name := "a", descending := false, dtype := .float }

/-- `dfDemo` after sorting by column "a" ascending: the row order [1, 0]
applied to every container. -/
def dfDemoSorted : DataFrame :=
  { labels := [{ kind := .int, slice := [.int 1, .int 0],
                 isNull := [false, false], name := "*0" }],
    values := [{ kind := .float, slice := [.float 1, .float 2],
                 isNull := [false, false], name := "a" }],
    name := "demo", err := none, colLevelNames := ["*0"] }

/-- primary-side key labels for the lookup demonstration: one level
"key" = ["a", "b"]. -/
def lookupLabels1 : List valueContainer :=
  [{ kind := .string, slice := [.str "a", .str "b"],
     isNull := [false, false], name := "key" }]

/-- secondary-side key labels for the lookup demonstration: one level
"key" = ["b", "a"], so primary row 0 matches secondary row 1 and primary
row 1 matches secondary row 0. -/
def lookupLabels2 : List valueContainer :=
  [{ kind := .string, slice := [.str "b", .str "a"],
     isNull := [false, false], name := "key" }]

/-- secondary values for the lookup demonstration: [10, 20] with row 1
null. -/
def lookupValues2 : valueContainer :=
  { kind := .float, slice := [.float 10, .float 20],
    isNull := [false, true], name := "v" }

/-- the total preorder the modelled float-row Less induces: a null row
sits above every value. -/
def ordKey (t : FRow) : WithTop ℚ :=
  if t.2.1 then ⊤ else (t.1 : WithTop ℚ)

/-- the grouping demonstration: one string key column
["foo","foo","bar","bar"]. -/
def groupDemo : List valueContainer :=
  [{ kind := .string, slice := [.str "foo", .str "foo", .str "bar", .str "bar"],
     isNull := [false, false, false, false], name := "k" }]

/-- a one-cell heap for the ownership demonstration. -/
def heapDemo : Heap :=
  [{ kind := .float, slice := [.float 1], isNull := [false] }]

/-- a one-column frame whose single container refers to cell 0 of
`heapDemo`. -/
def hdfDemo : HDataFrame :=
  { labels := [], values := [{ ref := 0, name := "a" }], name := "d",
    err := none, colLevelNames := ["*0"] }

/-- the mutations the ownership demonstration applies to the copy: write
a value and a null flag of the first column. -/
def mutsDemo : List Mut :=
  [Mut.mval 0 0 (.float 9), Mut.mnull 0 0 true]

/-!
Theorems. -/

/-- the identity int range is the casted `List.range`. -/
theorem makeIntRange_zero (n : Nat) :
    makeIntRange 0 (n : Int) = (List.range n).map Int.ofNat := by
  unfold makeIntRange
  have h1 : ((n : Int) - 0).toNat = n := by omega
  rw [h1]
  apply List.map_congr_left
  intro a _
  omega

/-- membership in the identity int range. -/
theorem mem_makeIntRange_zero {n : Nat} {i : Int}
    (h : i ∈ makeIntRange 0 (n : Int)) : ∃ j : Nat, j < n ∧ i = (j : Int) := by
  rw [makeIntRange_zero] at h
  obtain ⟨j, hj, rfl⟩ := List.mem_map.mp h
  exact ⟨j, List.mem_range.mp hj, rfl⟩

/-- length of the identity int range. -/
theorem length_makeIntRange_zero (n : Nat) :
    (makeIntRange 0 (n : Int)).length = n := by
  rw [makeIntRange_zero]
  simp

/-- C1: the claim says `df.Sort(by...)` deep-copies before mutating,
returning a new sorted DataFrame and leaving the receiver unchanged. The
source (dataframe.go line 2400) discards the result of `df.Copy()`
instead of rebinding `df`, so the in-place sort runs on the receiver:
sorting the demonstration frame by its float column returns the receiver
itself, now reordered, and the receiver no longer equals its old state. -/
theorem claim_C1 :
    dfSortEntry dfDemo [sorterDemo] = .ok (dfDemoSorted, dfDemoSorted) ∧
    dfDemoSorted ≠ dfDemo := by
  constructor
  · decide
  · decide

/-- C2: the claim says a lookup hit copies the value and the null status
of the first matching secondary row. In `lookupWithAnchor`
(src/unnamed/part_000 line 1199) the null status is read at the primary
row position `i` instead of at `matchedIndex`: with keys ["a","b"] against
["b","a"] and secondary values [10, 20¬null=false,true], primary row 0
matches secondary row 1 (value 20, null), yet the result flags row 0
non-null and row 1 null — the mask is the primary-position mask
[false, true] rather than the matched-row mask [true, false]. The
DataFrame variant (line 1243) reads `matchedIndex` and produces the
correct mask on the same data. -/
theorem claim_C2 :
    lookupWithAnchor "v" lookupLabels1 [0] lookupValues2 lookupLabels2 [0] =
      some { values := { kind := .float, slice := [.float 20, .float 10],
                         isNull := [false, true], name := "v" },
             labels := lookupLabels1, err := none } ∧
    lookupValues2.isNull = [false, true] ∧
    lookupDataFrameWithAnchor "df" ["*0"] lookupLabels1 lookupLabels1 [0]
        [lookupValues2] (lookupLabels2 ++ [lookupValues2]) [0] [] =
      some { labels := lookupLabels1,
             values := [{ kind := .float, slice := [.float 20, .float 10],
                          isNull := [true, false], name := "v" }],
             name := "df", err := none, colLevelNames := ["*0"] } := by
  refine ⟨rfl, rfl, rfl⟩

/-- C3: the claim says out-of-range Subset/DropRow indices (including
negative ones) always produce the sticky-error state and never panic. On
the demonstration frame an index ≥ length does produce the sticky error,
but a negative index reaches the unguarded reads `vc.isNull[indexValue]`
(src/unnamed/part_000 line 667) and `vc.isNull[:index]` (line 1266) and
panics: the embedded calls evaluate to `.crash`, not to a sticky-error
frame. -/
theorem claim_C3 :
    dfMutSubset dfDemo [-1] = .crash ∧
    dfMutDropRow dfDemo (-1) = .crash ∧
    dfMutSubset dfDemo [5] =
      .ok (resetWithError dfDemo "Subset(): index out of range (5 > 1)") ∧
    dfMutDropRow dfDemo 5 =
      .ok (resetWithError dfDemo "DropRow(): index out of range (5 > 1)") := by
  refine ⟨rfl, rfl, rfl, rfl⟩

/-- C5 counterexample: the claim says every operation called on an
errored (reset) table short-circuits without panicking on the now-empty
internals. `DataFrame.Len` (dataframe.go line 1169) reads `df.values[0]`
unconditionally; on the empty errored state this read panics (modelled
`none`) instead of short-circuiting. -/
theorem claim_C5_counterexample :
    dfLen (resetWithError dfDemo "boom") = none ∧
    dfErr (resetWithError dfDemo "boom") = some "boom" := by
  refine ⟨rfl, rfl⟩

/-- C5 amended: after an error resets a DataFrame to the empty state
carrying only the error, `Err` returns that error, and the in-place row
operations short-circuit over the empty internals — `Subset` loops over
zero containers, leaves the frame in the same errored state and does not
panic; but accessors that index into the internals (such as `Len`) panic
rather than short-circuit. -/
theorem claim_C5 (df : DataFrame) (e : String) (index : List Int) :
    dfMutSubset (resetWithError df e) index = .ok (resetWithError df e) ∧
    dfErr (resetWithError df e) = some e := by
  refine ⟨rfl, rfl⟩

/-- on an all-null index list the sum loop keeps its accumulator state. -/
theorem goSum_allnull (vals : List ℚ) (isNull : List Bool) (index : List Int)
    (acc : ℚ) (valid : Bool) (H : ∀ i ∈ index, goGet isNull i = some true) :
    goSum vals isNull index acc valid =
      some (if valid then (acc, false) else ((0 : ℚ), true)) := by
  induction index with
  | nil => rfl
  | cons i rest ih =>
    have hi := H i (by simp)
    simp only [goSum, hi]
    exact ih (fun j hj => H j (by simp [hj]))

/-- on an all-null index list the mean loop keeps its accumulator state. -/
theorem goMean_allnull (vals : List ℚ) (isNull : List Bool) (index : List Int)
    (acc counter : ℚ) (valid : Bool) (H : ∀ i ∈ index, goGet isNull i = some true) :
    goMean vals isNull index acc counter valid =
      some (if valid then (acc / counter, false) else ((0 : ℚ), true)) := by
  induction index with
  | nil => rfl
  | cons i rest ih =>
    have hi := H i (by simp)
    simp only [goMean, hi]
    exact ih (fun j hj => H j (by simp [hj]))

/-- on an all-null index list the std loop keeps its accumulator state. -/
theorem goStdLoop_allnull (vals : List ℚ) (isNull : List Bool) (index : List Int)
    (m variance counter : ℚ) (valid : Bool)
    (H : ∀ i ∈ index, goGet isNull i = some true) :
    goStdLoop vals isNull index m variance counter valid =
      some (if valid then (goSqrt (variance / counter), false) else ((0 : ℚ), true)) := by
  induction index with
  | nil => rfl
  | cons i rest ih =>
    have hi := H i (by simp)
    simp only [goStdLoop, hi]
    exact ih (fun j hj => H j (by simp [hj]))

/-- on an all-null index list the count loop keeps its accumulator state. -/
theorem goCount_allnull (vals : List ℚ) (isNull : List Bool) (index : List Int)
    (counter : Nat) (valid : Bool) (H : ∀ i ∈ index, goGet isNull i = some true) :
    goCount vals isNull index counter valid =
      some (if valid then ((counter : ℚ), false) else ((0 : ℚ), true)) := by
  induction index with
  | nil => rfl
  | cons i rest ih =>
    have hi := H i (by simp)
    simp only [goCount, hi]
    exact ih (fun j hj => H j (by simp [hj]))

/-- on an all-null index list the min loop keeps its accumulator state. -/
theorem goMin_allnull (vals : List ℚ) (isNull : List Bool) (index : List Int)
    (acc : Option ℚ) (valid : Bool) (H : ∀ i ∈ index, goGet isNull i = some true) :
    goMin vals isNull index acc valid =
      some (if valid then (acc.getD 0, false) else ((0 : ℚ), true)) := by
  induction index with
  | nil => rfl
  | cons i rest ih =>
    have hi := H i (by simp)
    simp only [goMin, hi]
    exact ih (fun j hj => H j (by simp [hj]))

/-- on an all-null index list the max loop keeps its accumulator state. -/
theorem goMax_allnull (vals : List ℚ) (isNull : List Bool) (index : List Int)
    (acc : Option ℚ) (valid : Bool) (H : ∀ i ∈ index, goGet isNull i = some true) :
    goMax vals isNull index acc valid =
      some (if valid then (acc.getD 0, false) else ((0 : ℚ), true)) := by
  induction index with
  | nil => rfl
  | cons i rest ih =>
    have hi := H i (by simp)
    simp only [goMax, hi]
    exact ih (fun j hj => H j (by simp [hj]))

/-- on an all-null index list the earliest loop keeps its accumulator state. -/
theorem goEarliest_allnull (tvals : List ℤ) (isNull : List Bool) (index : List Int)
    (acc : ℤ) (valid : Bool) (H : ∀ i ∈ index, goGet isNull i = some true) :
    goEarliest tvals isNull index acc valid =
      some (if valid then (acc, false) else ((0 : ℤ), true)) := by
  induction index with
  | nil => rfl
  | cons i rest ih =>
    have hi := H i (by simp)
    simp only [goEarliest, hi]
    exact ih (fun j hj => H j (by simp [hj]))

/-- on an all-null index list the latest loop keeps its accumulator state. -/
theorem goLatest_allnull (tvals : List ℤ) (isNull : List Bool) (index : List Int)
    (acc : ℤ) (valid : Bool) (H : ∀ i ∈ index, goGet isNull i = some true) :
    goLatest tvals isNull index acc valid =
      some (if valid then (acc, false) else ((0 : ℤ), true)) := by
  induction index with
  | nil => rfl
  | cons i rest ih =>
    have hi := H i (by simp)
    simp only [goLatest, hi]
    exact ih (fun j hj => H j (by simp [hj]))

/-- on an all-null index list `first` never finds a valid row. -/
theorem goFirst_allnull (svals : List String) (isNull : List Bool) (index : List Int)
    (H : ∀ i ∈ index, goGet isNull i = some true) :
    goFirst svals isNull index = some ("", true) := by
  induction index with
  | nil => rfl
  | cons i rest ih =>
    have hi := H i (by simp)
    simp only [goFirst, hi]
    exact ih (fun j hj => H j (by simp [hj]))

/-- on an all-null index list the null-skipping collector returns a list
of misses. -/
theorem collect_allnull (vals : List ℚ) (isNull : List Bool) (index : List Int)
    (H : ∀ i ∈ index, goGet isNull i = some true) :
    index.mapM (fun i => do
      let b ← goGet isNull i
      if b then some none
      else do
        let v ← goGet vals i
        some (some v)) = some (index.map (fun _ => (none : Option ℚ))) := by
  induction index with
  | nil => rfl
  | cons i rest ih =>
    have hi := H i (by simp)
    have ih2 := ih (fun j hj => H j (by simp [hj]))
    simp only [List.mapM_cons, hi, Option.bind_eq_bind, Option.some_bind, if_pos, List.map_cons]
    simp only [Option.bind_eq_bind] at ih2
    rw [ih2]
    rfl

/-- C8: every reduction function applied to an all-null (or empty)
partition flags its result null — `sum`, `mean`, `median`, `std`, `count`,
`min`, `max`, `earliest`, `latest`, `first`, `last` and the generic
reducer built by `convertSimplifiedFloat64Func` all return `isNull = true`
when every row at the index positions is null, and never a silently-valid
non-null zero. -/
theorem claim_C8 (vals : List ℚ) (svals : List String) (tvals : List ℤ)
    (isNull : List Bool) (index : List Int) (fn : List ℚ → ℚ)
    (H : ∀ i ∈ index, goGet isNull i = some true) :
    goSum vals isNull index 0 false = some (0, true) ∧
    goMean vals isNull index 0 0 false = some (0, true) ∧
    goMedian vals isNull index = some (goNaN, true) ∧
    goStd vals isNull index = some (0, true) ∧
    goCount vals isNull index 0 false = some (0, true) ∧
    goMin vals isNull index none false = some (0, true) ∧
    goMax vals isNull index none false = some (0, true) ∧
    goEarliest tvals isNull index earliestInitSentinel false = some (0, true) ∧
    goLatest tvals isNull index 0 false = some (0, true) ∧
    goFirst svals isNull index = some ("", true) ∧
    goLast svals isNull index = some ("", true) ∧
    convertSimplifiedFloat64Func fn vals isNull index = some (emptyFloat64, true) := by
  have Hrev : ∀ i ∈ index.reverse, goGet isNull i = some true := by
    intro i hi
    exact H i (List.mem_reverse.mp hi)
  refine ⟨goSum_allnull _ _ _ _ _ H, goMean_allnull _ _ _ _ _ _ H, ?_, ?_,
    goCount_allnull _ _ _ _ _ H, goMin_allnull _ _ _ _ _ H,
    goMax_allnull _ _ _ _ _ H, goEarliest_allnull _ _ _ _ _ H,
    goLatest_allnull _ _ _ _ _ H, goFirst_allnull _ _ _ H,
    goFirst_allnull _ _ _ Hrev, ?_⟩
  · simp only [goMedian, collect_allnull vals isNull index H]
    simp [List.filterMap_map]
  · simp only [goStd, goMean_allnull vals isNull index 0 0 false H]
    exact goStdLoop_allnull _ _ _ _ _ _ _ H
  · simp only [convertSimplifiedFloat64Func, collect_allnull vals isNull index H]
    simp [List.filterMap_map]

/-- C8 witness: the reducers on the concrete all-null partition
[1, 2] / [true, true] over rows [0, 1]. -/
theorem claim_C8_witness :
    (∀ i ∈ ([0, 1] : List Int), goGet [true, true] i = some true) ∧
    (goSum [1, 2] [true, true] [0, 1] 0 false = some (0, true) ∧
     goMean [1, 2] [true, true] [0, 1] 0 0 false = some (0, true) ∧
     goMedian [1, 2] [true, true] [0, 1] = some (goNaN, true) ∧
     goStd [1, 2] [true, true] [0, 1] = some (0, true) ∧
     goCount [1, 2] [true, true] [0, 1] 0 false = some (0, true) ∧
     goMin [1, 2] [true, true] [0, 1] none false = some (0, true) ∧
     goMax [1, 2] [true, true] [0, 1] none false = some (0, true) ∧
     goEarliest [3, 4] [true, true] [0, 1] earliestInitSentinel false = some (0, true) ∧
     goLatest [3, 4] [true, true] [0, 1] 0 false = some (0, true) ∧
     goFirst ["x", "y"] [true, true] [0, 1] = some ("", true) ∧
     goLast ["x", "y"] [true, true] [0, 1] = some ("", true) ∧
     convertSimplifiedFloat64Func (fun l => l.sum) [1, 2] [true, true] [0, 1] =
       some (emptyFloat64, true)) :=
  ⟨by decide, claim_C8 [1, 2] ["x", "y"] [3, 4] [true, true] [0, 1]
    (fun l => l.sum) (by decide)⟩

/-- the subset loop builds its two output sequences in lockstep. -/
theorem subsetRowsAux_ok_lengths (slice : List Val) (isNull : List Bool) (l : Nat) :
    ∀ (index : List Int) (vs : List Val) (bs : List Bool),
      subsetRowsAux slice isNull l index = .ok (vs, bs) → vs.length = bs.length := by
  intro index
  induction index with
  | nil =>
    intro vs bs h
    simp only [subsetRowsAux] at h
    cases h
    rfl
  | cons i rest ih =>
    intro vs bs h
    simp only [subsetRowsAux] at h
    split at h
    · exact absurd h (by simp)
    · split at h
      · split at h
        · rename_i vs' bs' heq
          cases h
          simpa using ih vs' bs' heq
        · exact absurd h (by simp)
        · exact absurd h (by simp)
      · exact absurd h (by simp)

/-- a pointwise-defined Option map over a list succeeds with the same length. -/
theorem mapM_some_of_forall {α β : Type} (f : α → Option β) :
    ∀ (l : List α), (∀ a ∈ l, (f a).isSome) →
      ∃ rs, l.mapM f = some rs ∧ rs.length = l.length := by
  intro l
  induction l with
  | nil =>
    intro _
    exact ⟨[], rfl, rfl⟩
  | cons a rest ih =>
    intro hall
    obtain ⟨b, hb⟩ := Option.isSome_iff_exists.mp (hall a (by simp))
    obtain ⟨rs, hrs, hlen⟩ := ih (fun x hx => hall x (by simp [hx]))
    refine ⟨b :: rs, ?_, by simp [hlen]⟩
    rw [List.mapM_cons, hb, hrs]
    rfl

/-- C10: every Column-producing operation preserves the
`len(values) == len(nullMask)` invariant — `subsetRows`, `dropRow`,
`head`, `tail`, `rangeSlice`, `shift`, `append` and `copy` all yield a
container whose values and null mask have equal length whenever their
inputs satisfy the invariant (for `subsetRows` both outputs always have
the length of the index list, with no input hypothesis at all). -/
theorem claim_C10 (vc other : valueContainer) (index : List Int)
    (i first last : Int) (n : Nat) (sh : Int)
    (h : vc.slice.length = vc.isNull.length)
    (hother : other.slice.length = other.isNull.length) :
    (∀ vc', vcSubsetRows vc index = .ok vc' → vc'.slice.length = vc'.isNull.length) ∧
    (∀ vc', vcDropRow vc i = .ok vc' → vc'.slice.length = vc'.isNull.length) ∧
    (∀ vc', vcHead vc n = some vc' → vc'.slice.length = vc'.isNull.length) ∧
    (∀ vc', vcTail vc n = some vc' → vc'.slice.length = vc'.isNull.length) ∧
    (∀ vc', vcRangeSlice vc first last = some vc' →
      vc'.slice.length = vc'.isNull.length) ∧
    (∃ vc', vcShift vc sh = some vc' ∧ vc'.slice.length = vc'.isNull.length) ∧
    (vcAppend vc other).slice.length = (vcAppend vc other).isNull.length ∧
    (vcCopy vc).slice.length = (vcCopy vc).isNull.length := by
  refine ⟨?_, ?_, ?_, ?_, ?_, ?_, ?_, ?_⟩
  · intro vc' hok
    simp only [vcSubsetRows] at hok
    split at hok
    · rename_i vs bs heq
      cases hok
      exact subsetRowsAux_ok_lengths vc.slice vc.isNull vc.slice.length index vs bs heq
    · cases hok
    · cases hok
  · intro vc' hok
    simp only [vcDropRow] at hok
    split at hok
    · cases hok
    · split at hok
      · cases hok
      · split at hok
        · cases hok
        · rename_i hge hneg hlen
          cases hok
          simp only [List.length_append, List.length_take, List.length_drop]
          have h1 : i.toNat < vc.slice.length := by omega
          have h2 : i.toNat + 1 ≤ vc.isNull.length := by omega
          omega
  · intro vc' hok
    simp only [vcHead] at hok
    split at hok
    · rename_i hcond
      cases hok
      simp only [List.length_take]
      omega
    · cases hok
  · intro vc' hok
    simp only [vcTail] at hok
    split at hok
    · rename_i hcond
      cases hok
      simp only [List.length_drop, List.length_take]
      omega
    · cases hok
  · intro vc' hok
    simp only [vcRangeSlice] at hok
    split at hok
    · rename_i hcond
      cases hok
      simp only [List.length_drop, List.length_take]
      omega
    · cases hok
  · have hall : ∀ i ∈ makeIntRange 0 (vc.slice.length : Int),
        ((fun i =>
          let position : Int := i - sh
          if position < 0 ∨ position ≥ ((vc.slice.length : Nat) : Int) then
            some (kindZero vc.kind, true)
          else do
            let v ← goGet vc.slice position
            let b ← goGet vc.isNull position
            some (v, b)) i).isSome := by
      intro i hi
      obtain ⟨j, hjlt, rfl⟩ := mem_makeIntRange_zero hi
      dsimp only
      split
      · rfl
      · rename_i hcond
        push_neg at hcond
        have h0 : (0 : Int) ≤ (j : Int) - sh := hcond.1
        have h1 : (j : Int) - sh < (vc.slice.length : Int) := hcond.2
        have hv : ((j : Int) - sh).toNat < vc.slice.length := by omega
        have hb : ((j : Int) - sh).toNat < vc.isNull.length := by omega
        have hgv : goGet vc.slice ((j : Int) - sh) =
            some (vc.slice.get ⟨((j : Int) - sh).toNat, hv⟩) := by
          simp [goGet, not_lt.mpr h0, List.get?_eq_get hv]
        have hgb : goGet vc.isNull ((j : Int) - sh) =
            some (vc.isNull.get ⟨((j : Int) - sh).toNat, hb⟩) := by
          simp [goGet, not_lt.mpr h0, List.get?_eq_get hb]
        simp [hgv, hgb]
    obtain ⟨rs, hrs, hlen⟩ :=
      mapM_some_of_forall _ (makeIntRange 0 (vc.slice.length : Int)) hall
    refine ⟨{ vc with slice := rs.map Prod.fst, isNull := rs.map Prod.snd }, ?_, by simp⟩
    simp only [vcShift]
    rw [hrs]
  · simp [vcAppend, strSlice, h, hother]
  · simp [vcCopy, h]

/-- C10 witness: the invariant-preservation theorem applied to a concrete
two-row float container and a concrete string container. -/
theorem claim_C10_witness :
    ((⟨.float, [.float 1, .float 2], [false, true], "a"⟩ :
        valueContainer).slice.length =
      (⟨.float, [.float 1, .float 2], [false, true], "a"⟩ :
        valueContainer).isNull.length) ∧
    (∃ vc', vcShift (⟨.float, [.float 1, .float 2], [false, true], "a"⟩ :
        valueContainer) 1 = some vc' ∧ vc'.slice.length = vc'.isNull.length) := by
  have h := claim_C10 ⟨.float, [.float 1, .float 2], [false, true], "a"⟩
    ⟨.string, [.str "x"], [false], "b"⟩ [0] 0 0 1 1 1 (by decide) (by decide)
  exact ⟨by decide, h.2.2.2.2.2.1⟩

/-- stable insertion produces a permutation of consing. -/
theorem insertStable_perm {α : Type} (lt : α → α → Bool) (x : α) (l : List α) :
    (insertStable lt x l).Perm (x :: l) := by
  induction l with
  | nil => exact List.Perm.refl _
  | cons y ys ih =>
    simp only [insertStable]
    split
    · exact (ih.cons y).trans (List.Perm.swap x y ys)
    · exact List.Perm.refl _

/-- the stable sort is a permutation of its input. -/
theorem stableSort_perm {α : Type} (lt : α → α → Bool) (l : List α) :
    (stableSort lt l).Perm l := by
  induction l with
  | nil => exact List.Perm.refl _
  | cons x xs ih =>
    exact (insertStable_perm lt x (stableSort lt xs)).trans (ih.cons x)

/-- a member of a zip3 is the pointwise triple of the three lists. -/
theorem zip3_mem {α β γ : Type} {t : α × β × γ} :
    ∀ {as : List α} {bs : List β} {cs : List γ}, t ∈ zip3 as bs cs →
      ∃ j, as.get? j = some t.1 ∧ bs.get? j = some t.2.1 ∧ cs.get? j = some t.2.2 := by
  intro as
  induction as with
  | nil =>
    intro bs cs ht
    simp [zip3] at ht
  | cons a as ih =>
    intro bs cs ht
    match bs, cs with
    | [], _ => simp [zip3] at ht
    | _ :: _, [] => simp [zip3] at ht
    | b :: bs, c :: cs =>
      simp only [zip3, List.mem_cons] at ht
      rcases ht with ht | ht
      · refine ⟨0, ?_, ?_, ?_⟩ <;> simp [ht]
      · obtain ⟨j, h1, h2, h3⟩ := ih ht
        exact ⟨j + 1, h1, h2, h3⟩

/-- the third projection of a full zip3 recovers the third list. -/
theorem zip3_map_third {α β γ : Type} :
    ∀ (cs : List γ) (as : List α) (bs : List β), as.length = cs.length →
      bs.length = cs.length → (zip3 as bs cs).map (fun t => t.2.2) = cs := by
  intro cs
  induction cs with
  | nil =>
    intro as bs ha hb
    cases as with
    | nil => rfl
    | cons a as => simp at ha
  | cons c cs ih =>
    intro as bs ha hb
    cases as with
    | nil => simp at ha
    | cons a as =>
      cases bs with
      | nil => simp at hb
      | cons b bs =>
        simp only [zip3, List.map_cons]
        rw [ih as bs (by simpa using ha) (by simpa using hb)]

/-- C7: `valueContainer.sort` on a whole column — for every comparison
kind and both directions — returns the row order as a block of indices of
non-null rows followed by a trailing block of indices of null rows
(the post-sort pass at src/unnamed/part_000 lines 1005-1013), and the
returned order is a permutation of all the rows. -/
theorem claim_C7 (vc : valueContainer) (dtype : DType) (descending : Bool)
    (h : vc.isNull.length = vc.slice.length) :
    ∃ A B, vcSort vc dtype descending (makeIntRange 0 (vc.slice.length : Int)) = A ++ B ∧
      (∀ k ∈ A, ∃ j : Nat, k = (j : Int) ∧ vc.isNull.get? j = some false) ∧
      (∀ k ∈ B, ∃ j : Nat, k = (j : Int) ∧ vc.isNull.get? j = some true) ∧
      (A ++ B).Perm (makeIntRange 0 (vc.slice.length : Int)) := by
  classical
  have hidxget : ∀ j : Nat, ∀ z : Int,
      (makeIntRange 0 (vc.slice.length : Int)).get? j = some z →
        j < vc.slice.length ∧ z = (j : Int) := by
    intro j z hz
    rw [makeIntRange_zero, List.get?_map] at hz
    by_cases hlt : j < vc.slice.length
    · rw [List.get?_range hlt] at hz
      cases hz
      exact ⟨hlt, rfl⟩
    · rw [List.get?_eq_none.mpr (by simpa using le_of_not_lt hlt)] at hz
      cases hz
  refine ⟨_, _, rfl, ?_, ?_, ?_⟩
  · intro k hk
    obtain ⟨t, ht, rfl⟩ := List.mem_map.mp hk
    have ht2 := List.mem_filter.mp ht
    have htr := (stableSort_perm _ _).mem_iff.mp ht2.1
    obtain ⟨j, _, hj2, hj3⟩ := zip3_mem htr
    obtain ⟨_, heq⟩ := hidxget j _ hj3
    refine ⟨j, heq, ?_⟩
    have hfalse : t.2.1 = false := by simpa using ht2.2
    rw [hj2, hfalse]
  · intro k hk
    obtain ⟨t, ht, rfl⟩ := List.mem_map.mp hk
    have ht2 := List.mem_filter.mp ht
    have htr := (stableSort_perm _ _).mem_iff.mp ht2.1
    obtain ⟨j, _, hj2, hj3⟩ := zip3_mem htr
    obtain ⟨_, heq⟩ := hidxget j _ hj3
    refine ⟨j, heq, ?_⟩
    have htrue : t.2.1 = true := ht2.2
    rw [hj2, htrue]
  · rw [← List.map_append]
    have heq : (fun t : SortRow => !(!t.2.1)) = (fun t : SortRow => t.2.1) := by
      funext t
      simp
    have hp := List.filter_append_perm (fun t : SortRow => !t.2.1)
      (stableSort (if descending then (fun a b => rowLt b a) else rowLt)
        (zip3 (vc.slice.map (keyOfDType dtype)) vc.isNull
          (makeIntRange 0 (vc.slice.length : Int))))
    rw [heq] at hp
    have hperm := hp.trans
      (stableSort_perm (if descending then (fun a b => rowLt b a) else rowLt)
        (zip3 (vc.slice.map (keyOfDType dtype)) vc.isNull
          (makeIntRange 0 (vc.slice.length : Int))))
    have hmap := hperm.map (fun t : SortRow => t.2.2)
    have hthird : (zip3 (vc.slice.map (keyOfDType dtype)) vc.isNull
        (makeIntRange 0 (vc.slice.length : Int))).map (fun t => t.2.2) =
        makeIntRange 0 (vc.slice.length : Int) := by
      apply zip3_map_third
      · simp [length_makeIntRange_zero]
      · simp [length_makeIntRange_zero, h]
    rw [hthird] at hmap
    exact hmap

/-- C7 witness: the three-row float column [3, null, 2] sorted descending
splits into non-null indices then the null index. -/
theorem claim_C7_witness :
    ((⟨.float, [.float 3, .float 1, .float 2], [false, true, false], "x"⟩ :
        valueContainer).isNull.length =
      (⟨.float, [.float 3, .float 1, .float 2], [false, true, false], "x"⟩ :
        valueContainer).slice.length) ∧
    ∃ A B, vcSort ⟨.float, [.float 3, .float 1, .float 2], [false, true, false], "x"⟩
        .float true (makeIntRange 0 ((3 : Nat) : Int)) = A ++ B ∧
      (∀ k ∈ A, ∃ j : Nat, k = (j : Int) ∧
        ([false, true, false] : List Bool).get? j = some false) ∧
      (∀ k ∈ B, ∃ j : Nat, k = (j : Int) ∧
        ([false, true, false] : List Bool).get? j = some true) ∧
      (A ++ B).Perm (makeIntRange 0 ((3 : Nat) : Int)) :=
  ⟨by decide,
    claim_C7 ⟨.float, [.float 3, .float 1, .float 2], [false, true, false], "x"⟩
      .float true (by decide)⟩

/-- copying one cell never disturbs existing cells. -/
theorem copyCellH_pres (h : Heap) (c : HVC) (r : Nat) (hr : r < h.length) :
    readCell (copyCellH h c).1 r = readCell h r := by
  unfold copyCellH
  split
  · simp only [readCell, List.get?_eq_getElem?]
    exact List.getElem?_append_left hr
  · rfl

/-- copying one cell only grows the heap. -/
theorem copyCellH_len (h : Heap) (c : HVC) : h.length ≤ (copyCellH h c).1.length := by
  unfold copyCellH
  split
  · simp
  · exact le_refl _

/-- a valid container copies to a reference at the end of the heap. -/
theorem copyCellH_ref (h : Heap) (c : HVC) (hc : c.ref < h.length) :
    (copyCellH h c).2.ref = h.length := by
  unfold copyCellH
  have : ∃ cell, readCell h c.ref = some cell := by
    simp only [readCell, List.get?_eq_getElem?]
    exact ⟨_, List.getElem?_eq_getElem hc⟩
  obtain ⟨cell, hcell⟩ := this
  rw [hcell]

/-- copying a container list never disturbs existing cells. -/
theorem copyContainersH_pres (cs : List HVC) :
    ∀ (h : Heap) (r : Nat), r < h.length →
      readCell (copyContainersH h cs).1 r = readCell h r := by
  induction cs with
  | nil =>
    intro h r _
    rfl
  | cons c rest ih =>
    intro h r hr
    simp only [copyContainersH]
    rw [ih (copyCellH h c).1 r (lt_of_lt_of_le hr (copyCellH_len h c))]
    exact copyCellH_pres h c r hr

/-- copying a container list only grows the heap. -/
theorem copyContainersH_len (cs : List HVC) :
    ∀ (h : Heap), h.length ≤ (copyContainersH h cs).1.length := by
  induction cs with
  | nil =>
    intro h
    exact le_refl _
  | cons c rest ih =>
    intro h
    exact le_trans (copyCellH_len h c) (ih (copyCellH h c).1)

/-- every container copied from valid originals refers past the original
heap. -/
theorem copyContainersH_refs (cs : List HVC) :
    ∀ (h0 h : Heap), h0.length ≤ h.length → (∀ c ∈ cs, c.ref < h0.length) →
      ∀ c2 ∈ (copyContainersH h cs).2, h0.length ≤ c2.ref := by
  induction cs with
  | nil =>
    intro h0 h _ _ c2 hc2
    simp [copyContainersH] at hc2
  | cons c rest ih =>
    intro h0 h hlen hvalid c2 hc2
    simp only [copyContainersH, List.mem_cons] at hc2
    rcases hc2 with hc2 | hc2
    · subst hc2
      rw [copyCellH_ref h c (lt_of_lt_of_le (hvalid c (by simp)) hlen)]
      exact hlen
    · exact ih h0 (copyCellH h c).1
        (le_trans hlen (copyCellH_len h c))
        (fun x hx => hvalid x (by simp [hx])) c2 hc2

/-- `DataFrame.Copy` never disturbs existing cells. -/
theorem dfCopyH_pres (h : Heap) (df : HDataFrame) (r : Nat) (hr : r < h.length) :
    readCell (dfCopyH h df).1 r = readCell h r := by
  unfold dfCopyH
  dsimp only
  rw [copyContainersH_pres df.labels _ r
    (lt_of_lt_of_le hr (copyContainersH_len df.values h))]
  exact copyContainersH_pres df.values h r hr

/-- every container of the copy refers past the original heap. -/
theorem dfCopyH_refs (h : Heap) (df : HDataFrame)
    (hvalid : ∀ c ∈ df.values ++ df.labels, c.ref < h.length) :
    ∀ c2 ∈ (dfCopyH h df).2.values ++ (dfCopyH h df).2.labels,
      h.length ≤ c2.ref := by
  intro c2 hc2
  unfold dfCopyH at hc2
  dsimp only at hc2
  rw [List.mem_append] at hc2
  rcases hc2 with hc2 | hc2
  · exact copyContainersH_refs df.values h h (le_refl _)
      (fun x hx => hvalid x (by simp [hx])) c2 hc2
  · exact copyContainersH_refs df.labels h (copyContainersH h df.values).1
      (copyContainersH_len df.values h)
      (fun x hx => hvalid x (by simp [hx])) c2 hc2

/-- a raw value write at one reference leaves all other cells unchanged. -/
theorem writeValH_pres (h : Heap) (r : Nat) (i : Nat) (v : Val) (r2 : Nat)
    (hne : r2 ≠ r) : readCell (writeValH h r i v) r2 = readCell h r2 := by
  unfold writeValH
  split
  · simp only [readCell, List.get?_eq_getElem?]
    exact List.getElem?_set_ne (Ne.symm hne)
  · rfl

/-- a raw null-mask write at one reference leaves all other cells
unchanged. -/
theorem writeNullH_pres (h : Heap) (r : Nat) (i : Nat) (b : Bool) (r2 : Nat)
    (hne : r2 ≠ r) : readCell (writeNullH h r i b) r2 = readCell h r2 := by
  unfold writeNullH
  split
  · simp only [readCell, List.get?_eq_getElem?]
    exact List.getElem?_set_ne (Ne.symm hne)
  · rfl

/-- a mutation applied through a frame whose containers all refer past a
bound leaves every cell below the bound unchanged. -/
theorem applyMut_pres (df2 : HDataFrame) (bound : Nat)
    (hrefs : ∀ c ∈ df2.values ++ df2.labels, bound ≤ c.ref)
    (h : Heap) (m : Mut) (r : Nat) (hr : r < bound) :
    readCell (applyMut df2 h m) r = readCell h r := by
  cases m with
  | mval k i v =>
    simp only [applyMut]
    split
    · rename_i c hc
      have hm : c ∈ df2.values ++ df2.labels := by
        rw [List.mem_append]
        exact Or.inl (List.get?_mem hc)
      exact writeValH_pres h c.ref i v r (by have := hrefs c hm; omega)
    · rfl
  | mnull k i b =>
    simp only [applyMut]
    split
    · rename_i c hc
      have hm : c ∈ df2.values ++ df2.labels := by
        rw [List.mem_append]
        exact Or.inl (List.get?_mem hc)
      exact writeNullH_pres h c.ref i b r (by have := hrefs c hm; omega)
    · rfl
  | mlabelval k i v =>
    simp only [applyMut]
    split
    · rename_i c hc
      have hm : c ∈ df2.values ++ df2.labels := by
        rw [List.mem_append]
        exact Or.inr (List.get?_mem hc)
      exact writeValH_pres h c.ref i v r (by have := hrefs c hm; omega)
    · rfl
  | mlabelnull k i b =>
    simp only [applyMut]
    split
    · rename_i c hc
      have hm : c ∈ df2.values ++ df2.labels := by
        rw [List.mem_append]
        exact Or.inr (List.get?_mem hc)
      exact writeNullH_pres h c.ref i b r (by have := hrefs c hm; omega)
    · rfl

/-- a whole sequence of mutations through such a frame leaves every cell
below the bound unchanged. -/
theorem foldMut_pres (df2 : HDataFrame) (bound : Nat)
    (hrefs : ∀ c ∈ df2.values ++ df2.labels, bound ≤ c.ref) :
    ∀ (muts : List Mut) (h : Heap) (r : Nat), r < bound →
      readCell (muts.foldl (applyMut df2) h) r = readCell h r := by
  intro muts
  induction muts with
  | nil =>
    intro h r _
    rfl
  | cons m rest ih =>
    intro h r hr
    simp only [List.foldl_cons]
    rw [ih (applyMut df2 h m) r hr]
    exact applyMut_pres df2 bound hrefs h m r hr

/-- C9: `df.Copy()` yields a fully independent clone — every container of
the copy lives in freshly allocated cells past the old heap, so any
sequence of later writes to the copy's values, null masks or labels
leaves the backing cell of every container of the original exactly as it
was, and the copy carries the same (value-held, hence equally independent)
error state. -/
theorem claim_C9 (h : Heap) (df : HDataFrame) (muts : List Mut)
    (hvalid : ∀ c ∈ df.values ++ df.labels, c.ref < h.length) :
    (∀ c ∈ df.values ++ df.labels,
      readCell (muts.foldl (applyMut (dfCopyH h df).2) (dfCopyH h df).1) c.ref =
        readCell h c.ref) ∧
    (dfCopyH h df).2.err = df.err := by
  constructor
  · intro c hc
    have hr : c.ref < h.length := hvalid c hc
    rw [foldMut_pres (dfCopyH h df).2 h.length (dfCopyH_refs h df hvalid)
      muts (dfCopyH h df).1 c.ref hr]
    exact dfCopyH_pres h df c.ref hr
  · rfl

/-- C9 witness: a one-column frame in a one-cell heap; writing a value and
a null flag into the copy leaves the original's cell untouched. -/
theorem claim_C9_witness :
    (∀ c ∈ hdfDemo.values ++ hdfDemo.labels, c.ref < heapDemo.length) ∧
    (∀ c ∈ hdfDemo.values ++ hdfDemo.labels,
      readCell (mutsDemo.foldl (applyMut (dfCopyH heapDemo hdfDemo).2)
        (dfCopyH heapDemo hdfDemo).1) c.ref = readCell heapDemo c.ref) :=
  ⟨by decide, (claim_C9 heapDemo hdfDemo mutsDemo (by decide)).1⟩

/-- association lookup distributes over append. -/
theorem lookupA_append {α : Type} (xs ys : List (String × α)) (k : String) :
    lookupA (xs ++ ys) k =
      match lookupA xs k with
      | some v => some v
      | none => lookupA ys k := by
  induction xs with
  | nil => rfl
  | cons p rest ih =>
    simp only [List.cons_append, lookupA]
    split
    · rfl
    · exact ih

/-- updating a present key makes its lookup return the new value. -/
theorem lookupA_setA_self {α : Type} (m : List (String × α)) (k : String) (v : α) :
    lookupA (setA m k v) k = some v := by
  induction m with
  | nil => simp [setA, lookupA]
  | cons p rest ih =>
    simp only [setA]
    split
    · rename_i heq
      simp [lookupA]
    · rename_i hne
      simp only [lookupA]
      split
      · rename_i heq
        exact absurd heq hne
      · exact ih

/-- updating one key leaves every other key's lookup unchanged. -/
theorem lookupA_setA_ne {α : Type} (m : List (String × α)) (k k2 : String) (v : α)
    (hne : k2 ≠ k) : lookupA (setA m k v) k2 = lookupA m k2 := by
  have hkk2 : ¬(k = k2) := fun h => hne h.symm
  induction m with
  | nil =>
    simp only [setA, lookupA, if_neg hkk2]
  | cons p rest ih =>
    simp only [setA]
    split
    · rename_i hpk
      simp only [lookupA, if_neg hkk2]
      rw [if_neg (show ¬(p.1 = k2) from by rw [hpk]; exact hkk2)]
    · simp only [lookupA]
      split
      · rfl
      · exact ih

/-- appending an unseen element appends it to the first occurrences. -/
theorem firstOccurrences_append_not_mem (l : List String) (k : String) (hk : k ∉ l) :
    firstOccurrences (l ++ [k]) = firstOccurrences l ++ [k] := by
  induction l with
  | nil => rfl
  | cons a rest ih =>
    have hne : k ≠ a := fun habs => hk (by simp [habs])
    rw [List.cons_append]
    simp only [firstOccurrences]
    rw [ih (fun habs => hk (by simp [habs])), List.filter_append]
    have hfk : List.filter (fun b => decide (b ≠ a)) [k] = [k] := by simp [hne]
    rw [hfk]
    rfl

/-- appending an already-seen element does not change the first
occurrences. -/
theorem firstOccurrences_append_mem (l : List String) (k : String) (hk : k ∈ l) :
    firstOccurrences (l ++ [k]) = firstOccurrences l := by
  induction l with
  | nil => simp at hk
  | cons a rest ih =>
    by_cases hak : k = a
    · subst hak
      by_cases hmem : k ∈ rest
      · rw [List.cons_append]
        simp only [firstOccurrences]
        rw [ih hmem]
      · rw [List.cons_append]
        simp only [firstOccurrences]
        rw [firstOccurrences_append_not_mem rest k hmem, List.filter_append]
        have hfk : List.filter (fun b => decide (b ≠ k)) [k] = [] := by simp
        rw [hfk, List.append_nil]
    · have hkr : k ∈ rest := by
        rcases List.mem_cons.mp hk with h1 | h1
        · exact absurd h1 hak
        · exact h1
      rw [List.cons_append]
      simp only [firstOccurrences]
      rw [ih hkr]

/-- first occurrences are members of the original list. -/
theorem firstOccurrences_mem (l : List String) (k : String)
    (hk : k ∈ firstOccurrences l) : k ∈ l := by
  induction l with
  | nil => simp [firstOccurrences] at hk
  | cons a rest ih =>
    simp only [firstOccurrences, List.mem_cons] at hk
    rcases hk with hk | hk
    · simp [hk]
    · exact List.mem_cons_of_mem a (ih (List.mem_of_mem_filter hk))

/-- the first occurrences contain no duplicates. -/
theorem firstOccurrences_nodup (l : List String) : (firstOccurrences l).Nodup := by
  induction l with
  | nil => simp [firstOccurrences]
  | cons a rest ih =>
    simp only [firstOccurrences]
    refine List.Nodup.cons ?_ (List.Nodup.filter _ ih)
    intro habs
    have := List.of_mem_filter habs
    simp at this

/-- a composite key occurs among the first `n` rows iff its position
filter is non-empty. -/
theorem keyFilter_ne_nil_iff (keyOf : Nat → String) (n : Nat) (k : String) :
    ((List.range n).filter (fun i => keyOf i = k) ≠ []) ↔
      k ∈ (List.range n).map keyOf := by
  rw [Ne, List.filter_eq_nil_iff]
  push_neg
  constructor
  · rintro ⟨i, hi, hp⟩
    exact List.mem_map.mpr ⟨i, hi, by simpa using hp⟩
  · rintro hk
    obtain ⟨i, hi, rfl⟩ := List.mem_map.mp hk
    exact ⟨i, hi, by simp⟩

/-- the `labelsToMap` row loop, characterized: after `n` rows the ordered
keys are the first occurrences of the first `n` composite keys, the
position map holds each key's row positions in ascending order, and the
first-position map holds each key's first occurrence. -/
theorem ltm_fold_spec (keyOf : Nat → String) (n : Nat) :
    ((List.range n).foldl (ltmStep keyOf) ltmInit).orderedKeys =
      firstOccurrences ((List.range n).map keyOf) ∧
    (∀ k, lookupA ((List.range n).foldl (ltmStep keyOf) ltmInit).allIndex k =
      (if ((List.range n).filter (fun i => keyOf i = k)) = [] then none
       else some ((List.range n).filter (fun i => keyOf i = k)))) ∧
    (∀ k, lookupA ((List.range n).foldl (ltmStep keyOf) ltmInit).firstIndex k =
      ((List.range n).filter (fun i => keyOf i = k)).head?) := by
  induction n with
  | zero => exact ⟨rfl, fun k => by simp [ltmInit, lookupA], fun k => by simp [ltmInit, lookupA]⟩
  | succ n ih =>
    obtain ⟨ihA, ihB, ihC⟩ := ih
    rw [List.range_succ]
    rw [List.foldl_append]
    simp only [List.foldl_cons, List.foldl_nil]
    by_cases hmem : keyOf n ∈ (List.range n).map keyOf
    · -- the key was already seen among the first n rows
      have hfil : (List.range n).filter (fun i => keyOf i = keyOf n) ≠ [] :=
        (keyFilter_ne_nil_iff keyOf n (keyOf n)).mpr hmem
      have hlook : lookupA ((List.range n).foldl (ltmStep keyOf) ltmInit).allIndex
          (keyOf n) = some ((List.range n).filter (fun i => keyOf i = keyOf n)) := by
        rw [ihB (keyOf n), if_neg hfil]
      refine ⟨?_, ?_, ?_⟩
      · simp only [ltmStep, hlook]
        rw [List.map_append, List.map_cons, List.map_nil,
          firstOccurrences_append_mem _ _ hmem]
        exact ihA
      · intro k
        simp only [ltmStep, hlook]
        by_cases hk : k = keyOf n
        · subst hk
          have hsing : List.filter (fun i => decide (keyOf i = keyOf n)) [n] = [n] := by
            simp
          rw [lookupA_setA_self, List.filter_append, hsing]
          rw [if_neg (by simp)]
        · have hsing : List.filter (fun i => decide (keyOf i = k)) [n] = [] := by
            simp
            exact fun h => hk h.symm
          rw [lookupA_setA_ne _ _ _ _ hk, ihB k, List.filter_append, hsing,
            List.append_nil]
      · intro k
        simp only [ltmStep, hlook]
        by_cases hk : k = keyOf n
        · subst hk
          have hsing : List.filter (fun i => decide (keyOf i = keyOf n)) [n] = [n] := by
            simp
          rw [ihC (keyOf n), List.filter_append, hsing]
          obtain ⟨x, xs, hxs⟩ := List.exists_cons_of_ne_nil hfil
          rw [hxs]
          rfl
        · have hsing : List.filter (fun i => decide (keyOf i = k)) [n] = [] := by
            simp
            exact fun h => hk h.symm
          rw [ihC k, List.filter_append, hsing, List.append_nil]
    · -- the key is new
      have hfil : (List.range n).filter (fun i => keyOf i = keyOf n) = [] := by
        by_contra habs
        exact hmem ((keyFilter_ne_nil_iff keyOf n (keyOf n)).mp habs)
      have hlook : lookupA ((List.range n).foldl (ltmStep keyOf) ltmInit).allIndex
          (keyOf n) = none := by
        rw [ihB (keyOf n), if_pos hfil]
      refine ⟨?_, ?_, ?_⟩
      · simp only [ltmStep, hlook]
        rw [List.map_append, List.map_cons, List.map_nil,
          firstOccurrences_append_not_mem _ _ hmem]
        rw [ihA]
      · intro k
        simp only [ltmStep, hlook]
        rw [lookupA_append]
        by_cases hk : k = keyOf n
        · subst hk
          have hsing : List.filter (fun i => decide (keyOf i = keyOf n)) [n] = [n] := by
            simp
          rw [ihB (keyOf n), if_pos hfil, List.filter_append, hsing, hfil]
          simp only [List.nil_append]
          rw [if_neg (by simp)]
          simp [lookupA]
        · have hsing : List.filter (fun i => decide (keyOf i = k)) [n] = [] := by
            simp
            exact fun h => hk h.symm
          rw [ihB k, List.filter_append, hsing, List.append_nil]
          split
          · rename_i v hv
            exact hv.symm
          · rename_i hv
            rw [hv]
            simp only [lookupA]
            rw [if_neg (fun h : keyOf n = k => hk h.symm)]
      · intro k
        simp only [ltmStep, hlook]
        rw [lookupA_append]
        by_cases hk : k = keyOf n
        · subst hk
          have hsing : List.filter (fun i => decide (keyOf i = keyOf n)) [n] = [n] := by
            simp
          rw [ihC (keyOf n), List.filter_append, hsing, hfil]
          simp only [List.nil_append]
          simp [lookupA]
        · have hsing : List.filter (fun i => decide (keyOf i = k)) [n] = [] := by
            simp
            exact fun h => hk h.symm
          rw [ihC k, List.filter_append, hsing, List.append_nil]
          split
          · rename_i v hv
            exact hv.symm
          · rename_i hv
            rw [hv]
            simp only [lookupA]
            rw [if_neg (fun h : keyOf n = k => hk h.symm)]

/-- mapping then traversing equals traversing the composition. -/
theorem mapM_map_comp {α β γ : Type} (g : α → β) (f : β → Option γ) (l : List α) :
    (l.map g).mapM f = l.mapM (fun x => f (g x)) := by
  induction l with
  | nil => rfl
  | cons a rest ih =>
    rw [List.map_cons, List.mapM_cons, List.mapM_cons, ih]

/-- traversal respects pointwise equality. -/
theorem mapM_congr {α β : Type} (f g : α → Option β) (l : List α)
    (h : ∀ x ∈ l, f x = g x) : l.mapM f = l.mapM g := by
  induction l with
  | nil => rfl
  | cons a rest ih =>
    rw [List.mapM_cons, List.mapM_cons, h a (by simp),
      ih (fun x hx => h x (by simp [hx]))]

/-- a goGet on a tail shifts the nonnegative index down by one. -/
theorem goGet_cons_ofNat_succ {α : Type} (a : α) (as : List α) (j : Nat) :
    goGet (a :: as) (Int.ofNat (j + 1)) = goGet as (Int.ofNat j) := by
  have h1 : ¬(Int.ofNat (j + 1) < 0) := by
    rw [Int.ofNat_eq_natCast]
    omega
  have h2 : ¬(Int.ofNat j < 0) := by
    rw [Int.ofNat_eq_natCast]
    omega
  unfold goGet
  rw [if_neg h1, if_neg h2]
  rfl

/-- reading every position of a list through `goGet` reproduces the list. -/
theorem range_mapM_goGet {α β : Type} (xs : List α) (f : α → β) :
    (List.range xs.length).mapM (fun j => (goGet xs (Int.ofNat j)).map f) =
      some (xs.map f) := by
  induction xs with
  | nil => rfl
  | cons a rest ih =>
    rw [List.length_cons, List.range_succ_eq_map, List.mapM_cons]
    have h0 : (goGet (a :: rest) (Int.ofNat 0)).map f = some (f a) := rfl
    rw [h0]
    rw [mapM_map_comp]
    rw [mapM_congr _ (fun j => (goGet rest (Int.ofNat j)).map f) _
      (fun j _ => by rw [goGet_cons_ofNat_succ])]
    rw [ih]
    rfl

/-- `subsetRows` succeeds on a fully in-range index list. -/
theorem vcSubsetRows_ok_of_valid (vc : valueContainer) (index : List Int)
    (h : ∀ i ∈ index, 0 ≤ i ∧ i.toNat < vc.slice.length ∧ i.toNat < vc.isNull.length) :
    ∃ vc', vcSubsetRows vc index = .ok vc' := by
  have haux : ∀ (ix : List Int),
      (∀ i ∈ ix, 0 ≤ i ∧ i.toNat < vc.slice.length ∧ i.toNat < vc.isNull.length) →
      ∃ vs bs, subsetRowsAux vc.slice vc.isNull vc.slice.length ix = .ok (vs, bs) := by
    intro ix
    induction ix with
    | nil =>
      intro _
      exact ⟨[], [], rfl⟩
    | cons i rest ihx =>
      intro hall
      obtain ⟨h0, h1, h2⟩ := hall i (by simp)
      obtain ⟨vs, bs, hvb⟩ := ihx (fun x hx => hall x (by simp [hx]))
      have hb : goGet vc.isNull i = some (vc.isNull.get ⟨i.toNat, h2⟩) := by
        simp [goGet, not_lt.mpr h0, List.get?_eq_get h2]
      have hv : goGet vc.slice i = some (vc.slice.get ⟨i.toNat, h1⟩) := by
        simp [goGet, not_lt.mpr h0, List.get?_eq_get h1]
      refine ⟨vc.slice.get ⟨i.toNat, h1⟩ :: vs, vc.isNull.get ⟨i.toNat, h2⟩ :: bs, ?_⟩
      simp only [subsetRowsAux, hb, hv, hvb]
      rw [if_neg (by omega)]
  obtain ⟨vs, bs, hvb⟩ := haux index h
  exact ⟨{ vc with slice := vs, isNull := bs }, by simp only [vcSubsetRows, hvb]⟩

/-- `labelsToMap` over all containers of a uniform-length table is the
characterized row-loop fold. -/
theorem labelsToMap_spec (containers : List valueContainer) (l : Nat)
    (hne : containers ≠ []) (hlen : ∀ c ∈ containers, c.slice.length = l) :
    labelsToMap containers (makeIntRange 0 (containers.length : Int)) =
      some ((List.range l).foldl
        (ltmStep (compositeKey (containers.map strSlice))) ltmInit) := by
  obtain ⟨c0, rest, rfl⟩ := List.exists_cons_of_ne_nil hne
  have hmapM : (makeIntRange 0 ((c0 :: rest).length : Int)).mapM
      (fun j => (goGet (c0 :: rest) j).map strSlice) =
      some ((c0 :: rest).map strSlice) := by
    rw [makeIntRange_zero, mapM_map_comp]
    exact range_mapM_goGet (c0 :: rest) strSlice
  simp only [labelsToMap, hmapM]
  simp only [List.map_cons]
  have hl : (strSlice c0).length = l := by
    simp only [strSlice, List.length_map]
    exact hlen c0 (by simp)
  rw [hl]

/-- C4: for every grouping by one or more key columns of uniform length,
the grouping result of `reduceContainers` (the fields `GroupBy` stores
verbatim into the `GroupedDataFrame`) lists each distinct composite key
exactly once in first-occurrence row order — never sorted order — and the
parallel `rowIndices` entry for each key is exactly that key's row
positions in ascending original order. -/
theorem claim_C4 (containers : List valueContainer) (l : Nat)
    (hne : containers ≠ [])
    (hlen : ∀ c ∈ containers, c.slice.length = l)
    (hnull : ∀ c ∈ containers, c.isNull.length = l) :
    ∃ newLabels rowIndices orderedKeys,
      reduceContainers containers = some (newLabels, rowIndices, orderedKeys) ∧
      orderedKeys = firstOccurrences ((List.range l).map
        (compositeKey (containers.map strSlice))) ∧
      orderedKeys.Nodup ∧
      rowIndices = orderedKeys.map (fun k => (List.range l).filter
        (fun i => compositeKey (containers.map strSlice) i = k)) := by
  obtain ⟨hA, hB, hC⟩ := ltm_fold_spec (compositeKey (containers.map strSlice)) l
  have hfirst : ∀ k ∈ ((List.range l).foldl
      (ltmStep (compositeKey (containers.map strSlice))) ltmInit).orderedKeys,
      ∃ i0 : Nat, i0 < l ∧
        lookupA ((List.range l).foldl
          (ltmStep (compositeKey (containers.map strSlice))) ltmInit).firstIndex k =
          some i0 := by
    intro k hk
    rw [hA] at hk
    have hkm := firstOccurrences_mem _ _ hk
    have hfil := (keyFilter_ne_nil_iff (compositeKey (containers.map strSlice)) l k).mpr hkm
    obtain ⟨x, xs, hxs⟩ := List.exists_cons_of_ne_nil hfil
    refine ⟨x, ?_, ?_⟩
    · have hxmem : x ∈ (List.range l).filter
          (fun i => compositeKey (containers.map strSlice) i = k) := by
        rw [hxs]
        simp
      exact List.mem_range.mp (List.mem_of_mem_filter hxmem)
    · rw [hC k, hxs]
      rfl
  have hrows : ∀ x ∈ ((List.range l).foldl
      (ltmStep (compositeKey (containers.map strSlice))) ltmInit).orderedKeys.map
        (fun k => ((lookupA ((List.range l).foldl
          (ltmStep (compositeKey (containers.map strSlice))) ltmInit).firstIndex
            k).getD 0 : Int)),
      ∀ c ∈ containers, 0 ≤ x ∧ x.toNat < c.slice.length ∧ x.toNat < c.isNull.length := by
    intro x hx c hc
    obtain ⟨k, hk, rfl⟩ := List.mem_map.mp hx
    obtain ⟨i0, hi0, hli⟩ := hfirst k hk
    rw [hli]
    simp only [Option.getD_some]
    refine ⟨by omega, ?_, ?_⟩
    · rw [hlen c hc]
      simpa using hi0
    · rw [hnull c hc]
      simpa using hi0
  have hsub : ∀ c ∈ containers,
      ((fun c => match vcSubsetRows c (((List.range l).foldl
        (ltmStep (compositeKey (containers.map strSlice))) ltmInit).orderedKeys.map
          (fun k => ((lookupA ((List.range l).foldl
            (ltmStep (compositeKey (containers.map strSlice))) ltmInit).firstIndex
              k).getD 0 : Int))) with
        | GoRes.ok c2 => some c2
        | GoRes.goErr _ => none
        | GoRes.crash => none) c).isSome := by
    intro c hc
    obtain ⟨c2, hc2⟩ := vcSubsetRows_ok_of_valid c _
      (fun i hi => hrows i hi c hc)
    simp only [hc2]
    rfl
  obtain ⟨newLabels, hnew, _⟩ := mapM_some_of_forall _ containers hsub
  refine ⟨newLabels,
    ((List.range l).foldl (ltmStep (compositeKey (containers.map strSlice)))
      ltmInit).orderedKeys.map
      (fun k => (lookupA ((List.range l).foldl
        (ltmStep (compositeKey (containers.map strSlice)))
          ltmInit).allIndex k).getD []),
    ((List.range l).foldl (ltmStep (compositeKey (containers.map strSlice)))
      ltmInit).orderedKeys, ?_, ?_, ?_, ?_⟩
  · simp only [reduceContainers, labelsToMap_spec containers l hne hlen]
    rw [hnew]
  · exact hA
  · rw [hA]
    exact firstOccurrences_nodup _
  · apply List.map_congr_left
    intro k hk
    rw [hA] at hk
    have hkm := firstOccurrences_mem _ _ hk
    have hfil := (keyFilter_ne_nil_iff (compositeKey (containers.map strSlice)) l k).mpr hkm
    rw [hB k, if_neg hfil]
    rfl

/-- C4 witness: grouping the concrete single key column
["foo","foo","bar","bar"] yields orderedKeys in first-occurrence order
(not sorted order) with each key's row positions in original order. -/
theorem claim_C4_witness :
    (groupDemo ≠ [] ∧ (∀ c ∈ groupDemo, c.slice.length = 4) ∧
      (∀ c ∈ groupDemo, c.isNull.length = 4)) ∧
    (∃ newLabels rowIndices orderedKeys,
      reduceContainers groupDemo = some (newLabels, rowIndices, orderedKeys) ∧
      orderedKeys = firstOccurrences ((List.range 4).map
        (compositeKey (groupDemo.map strSlice))) ∧
      orderedKeys.Nodup ∧
      rowIndices = orderedKeys.map (fun k => (List.range 4).filter
        (fun i => compositeKey (groupDemo.map strSlice) i = k))) :=
  ⟨⟨by decide, by decide, by decide⟩,
    claim_C4 groupDemo 4 (by decide) (by decide) (by decide)⟩

/-- the modelled float-row Less is the strict order of `ordKey`. -/
theorem frowLt_iff (a b : FRow) : frowLt a b = true ↔ ordKey a < ordKey b := by
  unfold frowLt ordKey
  by_cases ha : a.2.1
  · simp [ha]
  · by_cases hb : b.2.1
    · simp [ha, hb, WithTop.coe_lt_top]
    · simp [ha, hb, WithTop.coe_lt_coe]

/-- insertion into an `ordKey`-sorted list keeps it sorted. -/
theorem insertStable_pairwise (x : FRow) (l : List FRow)
    (hl : l.Pairwise (fun a b => ordKey a ≤ ordKey b)) :
    (insertStable frowLt x l).Pairwise (fun a b => ordKey a ≤ ordKey b) := by
  induction l with
  | nil => simp [insertStable]
  | cons y ys ih =>
    rcases hl with _ | ⟨hy, hys⟩
    simp only [insertStable]
    split
    · rename_i hlt
      have hyx : ordKey y ≤ ordKey x := le_of_lt ((frowLt_iff y x).mp hlt)
      refine List.Pairwise.cons ?_ (ih hys)
      intro z hz
      have hz2 := (insertStable_perm frowLt x ys).mem_iff.mp hz
      rcases List.mem_cons.mp hz2 with hz3 | hz3
      · subst hz3
        exact hyx
      · exact hy z hz3
    · rename_i hnlt
      have hxy : ordKey x ≤ ordKey y := by
        have := (frowLt_iff y x).not.mp (by simpa using hnlt)
        exact le_of_not_lt this
      refine List.Pairwise.cons ?_ (List.Pairwise.cons hy hys)
      intro z hz
      rcases List.mem_cons.mp hz with hz3 | hz3
      · subst hz3
        exact hxy
      · exact le_trans hxy (hy z hz3)

/-- the stable sort of float rows is sorted by `ordKey`. -/
theorem stableSort_pairwise (l : List FRow) :
    (stableSort frowLt l).Pairwise (fun a b => ordKey a ≤ ordKey b) := by
  induction l with
  | nil => simp [stableSort]
  | cons x xs ih => exact insertStable_pairwise x (stableSort frowLt xs) ih

/-- reading a cast natural index through `goGet`. -/
theorem goGet_natCast {α : Type} (xs : List α) (p : Nat) :
    goGet xs (p : Int) = xs.get? p := by
  unfold goGet
  rw [if_neg (by omega)]
  rw [Int.toNat_natCast]

/-- a `listSetQ` write keeps the length. -/
theorem listSetQ_length (xs : List ℚ) (q : Int) (v : ℚ) :
    (listSetQ xs q v).length = xs.length := by
  unfold listSetQ
  split
  · rfl
  · exact List.length_set xs _ _

/-- reading back a `listSetQ` write at the written (valid) position. -/
theorem listSetQ_get_self (xs : List ℚ) (p : Nat) (v : ℚ) (hp : p < xs.length) :
    (listSetQ xs (p : Int) v).get? p = some v := by
  unfold listSetQ
  rw [if_neg (by omega)]
  have : ((p : Int)).toNat = p := by omega
  rw [this]
  rw [List.get?_eq_getElem?]
  rw [List.getElem?_set_self (by omega)]

/-- reading another position after a `listSetQ` write. -/
theorem listSetQ_get_ne (xs : List ℚ) (q : Int) (p : Nat) (v : ℚ)
    (hne : q ≠ (p : Int)) : (listSetQ xs q v).get? p = xs.get? p := by
  unfold listSetQ
  split
  · rfl
  · rw [List.get?_eq_getElem?, List.get?_eq_getElem?]
    exact List.getElem?_set_ne (by omega)

/-- pointwise membership of a zip3 from its three components. -/
theorem zip3_mem_of_get {α β γ : Type} {as : List α} {bs : List β} {cs : List γ}
    {j : Nat} {a : α} {b : β} {c : γ} (ha : as.get? j = some a)
    (hb : bs.get? j = some b) (hc : cs.get? j = some c) :
    (a, b, c) ∈ zip3 as bs cs := by
  induction as generalizing bs cs j with
  | nil => simp at ha
  | cons x xs ih =>
    cases bs with
    | nil => simp at hb
    | cons y ys =>
      cases cs with
      | nil => simp at hc
      | cons z zs =>
        cases j with
        | zero =>
          simp only [List.get?] at ha hb hc
          cases ha
          cases hb
          cases hc
          simp [zip3]
        | succ j =>
          simp only [List.get?] at ha hb hc
          simp only [zip3, List.mem_cons]
          exact Or.inr (ih ha hb hc)

/-- the valid rows of a zip3, projected to values, are the valid values of
the first two lists. -/
theorem zip3_filter_valid {α γ : Type} :
    ∀ (cs : List γ) (as : List α) (bs : List Bool), as.length = cs.length →
      bs.length = cs.length →
      ((zip3 as bs cs).filter (fun t => !t.2.1)).map Prod.fst =
        ((as.zip bs).filter (fun x => !x.2)).map Prod.fst := by
  intro cs
  induction cs with
  | nil =>
    intro as bs ha hb
    cases as with
    | nil => rfl
    | cons a as => simp at ha
  | cons c cs ih =>
    intro as bs ha hb
    cases as with
    | nil => simp at ha
    | cons a as =>
      cases bs with
      | nil => simp at hb
      | cons b bs =>
        simp only [zip3, List.zip_cons_cons, List.filter_cons]
        by_cases hbv : b = true
        · subst hbv
          simp only [Bool.not_true]
          rw [if_neg (by simp), if_neg (by simp)]
          exact ih as bs (by simpa using ha) (by simpa using hb)
        · have hbv2 : b = false := by simpa using hbv
          subst hbv2
          simp only [Bool.not_false]
          rw [if_pos (by simp), if_pos (by simp)]
          simp only [List.map_cons]
          rw [ih as bs (by simpa using ha) (by simpa using hb)]

/-- `dcount` only depends on the multiset of values. -/
theorem dcount_perm (l l2 : List ℚ) (hp : l.Perm l2) (v : ℚ) :
    dcount l v = dcount l2 v := by
  unfold dcount
  exact ((hp.filter _).dedup).length_eq

/-- appending a value at least as large as the threshold leaves `dcount`
unchanged. -/
theorem dcount_append_ge (l : List ℚ) (a v : ℚ) (ha : ¬(a < v)) :
    dcount (l ++ [a]) v = dcount l v := by
  unfold dcount
  rw [List.filter_append]
  have : List.filter (fun w => decide (w < v)) [a] = [] := by
    simp [ha]
  rw [this, List.append_nil]

/-- the number of distinct values grows by one exactly on unseen values. -/
theorem dedupLen_append (l : List ℚ) (a : ℚ) :
    (l ++ [a]).dedup.length = if a ∈ l then l.dedup.length else l.dedup.length + 1 := by
  classical
  have h1 : ∀ m : List ℚ, m.dedup.length = m.toFinset.card := by
    intro m
    rw [List.card_toFinset]
  rw [h1, h1, List.toFinset_append]
  have h2 : ([a] : List ℚ).toFinset = {a} := by simp
  rw [h2]
  have h3 : l.toFinset ∪ {a} = insert a l.toFinset := by
    rw [Finset.union_comm]
    rfl
  rw [h3]
  by_cases hm : a ∈ l
  · rw [if_pos hm, Finset.card_insert_of_mem (by simpa using hm)]
  · rw [if_neg hm, Finset.card_insert_of_not_mem (by simpa using hm)]

/-- a null row's `ordKey` forces everything above it to be null too. -/
theorem ordKey_top_le {a b : FRow} (ha : a.2.1 = true)
    (h : ordKey a ≤ ordKey b) : b.2.1 = true := by
  unfold ordKey at h
  rw [if_pos ha] at h
  by_cases hb : b.2.1
  · exact hb
  · rw [if_neg hb] at h
    exact absurd (top_le_iff.mp h) (by simp)

/-- between two valid rows, `ordKey` order is value order. -/
theorem ordKey_le_valid {a b : FRow} (ha : a.2.1 = false) (hb : b.2.1 = false)
    (h : ordKey a ≤ ordKey b) : a.1 ≤ b.1 := by
  unfold ordKey at h
  rw [if_neg (by simp [ha]), if_neg (by simp [hb])] at h
  exact_mod_cast h

/-- a block of sentinel writes leaves untouched positions unchanged. -/
theorem foldSet_read_none (W : List FRow) :
    ∀ (ret : List ℚ) (p : Nat), (∀ t ∈ W, t.2.2 ≠ (p : Int)) →
      (W.foldl (fun r t => listSetQ r t.2.2 (-999)) ret).get? p = ret.get? p := by
  induction W with
  | nil =>
    intro ret p _
    rfl
  | cons t rest ih =>
    intro ret p hnone
    rw [List.foldl_cons, ih _ p (fun u hu => hnone u (by simp [hu]))]
    exact listSetQ_get_ne ret t.2.2 p _ (hnone t (by simp))

/-- positions written by a block of sentinel writes read back the
sentinel. -/
theorem foldSet_read_mem (W : List FRow) :
    ∀ (ret : List ℚ) (p : Nat), p < ret.length →
      (∃ t ∈ W, t.2.2 = (p : Int)) →
      (W.foldl (fun r t => listSetQ r t.2.2 (-999)) ret).get? p = some (-999) := by
  induction W with
  | nil =>
    intro ret p _ hex
    obtain ⟨t, ht, _⟩ := hex
    simp at ht
  | cons t rest ih =>
    intro ret p hp hex
    rw [List.foldl_cons]
    by_cases hrest : ∃ u ∈ rest, u.2.2 = (p : Int)
    · exact ih _ p (by rw [listSetQ_length]; exact hp) hrest
    · obtain ⟨u, hu, hup⟩ := hex
      rcases List.mem_cons.mp hu with rfl | hu2
      · rw [foldSet_read_none rest _ p
          (fun w hw habs => hrest ⟨w, hw, habs⟩)]
        rw [hup]
        exact listSetQ_get_self ret p _ hp
      · exact absurd ⟨u, hu2, hup⟩ hrest

/-- on an all-null suffix the rank loop writes the sentinel at every row
position, whatever its counter, offset and previous-row state. -/
theorem rankLoop_allnull (W : List FRow) (hW : ∀ t ∈ W, t.2.1 = true) :
    ∀ (i : Nat) (off : ℚ) (prev : Option FRow) (ret : List ℚ),
      rankLoop W i off prev ret =
        W.foldl (fun r t => listSetQ r t.2.2 (-999)) ret := by
  induction W with
  | nil =>
    intro i off prev ret
    rfl
  | cons t rest ih =>
    intro i off prev ret
    have ht := hW t (by simp)
    simp only [rankLoop]
    rw [if_pos ht, List.foldl_cons]
    exact ih (fun u hu => hW u (by simp [hu])) _ _ _ _

/-- the rank write-back loop, characterized: starting after a processed
block `C` of valid rows (positions already holding their dense ranks, the
offset holding distinct-minus-processed, the previous row being `C`'s
last), processing the remaining sorted rows `W` leaves every null row's
position holding the sentinel -999 and every valid row's position holding
one plus the number of distinct valid values strictly below it. -/
theorem rankLoop_main (n : Nat) (W : List FRow) :
    ∀ (C : List FRow) (ret : List ℚ),
      (C ++ W).Pairwise (fun a b => ordKey a ≤ ordKey b) →
      (∀ t ∈ C, t.2.1 = false) →
      (∀ t ∈ C ++ W, ∃ j : Nat, j < n ∧ t.2.2 = (j : Int)) →
      ((C ++ W).map (fun t => t.2.2)).Nodup →
      ret.length = n →
      (∀ t ∈ C, goGet ret t.2.2 = some (1 + (dcount (C.map Prod.fst) t.1 : ℚ))) →
      ∀ t ∈ C ++ W,
        goGet (rankLoop W C.length
          (((C.map Prod.fst).dedup.length : ℚ) - (C.length : ℚ)) C.getLast? ret)
          t.2.2 =
        some (if t.2.1 = true then (-999 : ℚ)
          else 1 + (dcount (((C ++ W).filter (fun u => !u.2.1)).map Prod.fst) t.1 : ℚ)) := by
  induction W with
  | nil =>
    intro C ret hsort hCval hpos hnodup hlen hret t ht
    rw [List.append_nil] at ht
    have htv := hCval t ht
    simp only [rankLoop]
    rw [hret t ht]
    rw [if_neg (by simp [htv])]
    have hfe : (C ++ []).filter (fun u => !u.2.1) = C := by
      rw [List.append_nil]
      exact List.filter_eq_self.mpr (fun u hu => by simp [hCval u hu])
    rw [hfe]
  | cons t0 W' ih =>
    intro C ret hsort hCval hpos hnodup hlen hret t ht
    obtain ⟨hpC, hpW, hcross⟩ := List.pairwise_append.mp hsort
    have ht0W' : ∀ u ∈ W', ordKey t0 ≤ ordKey u := by
      intro u hu
      exact (List.pairwise_cons.mp hpW).1 u hu
    by_cases hn : t0.2.1 = true
    · -- a null row: everything from here on is null
      have hWnull : ∀ u ∈ t0 :: W', u.2.1 = true := by
        intro u hu
        rcases List.mem_cons.mp hu with rfl | hu2
        · exact hn
        · exact ordKey_top_le hn (ht0W' u hu2)
      rw [rankLoop_allnull (t0 :: W') hWnull]
      have hdisj : List.Disjoint (C.map (fun u => u.2.2))
          ((t0 :: W').map (fun u => u.2.2)) := by
        rw [List.map_append] at hnodup
        exact (List.nodup_append.mp hnodup).2.2
      have hfe : (C ++ t0 :: W').filter (fun u => !u.2.1) = C := by
        rw [List.filter_append]
        rw [List.filter_eq_self.mpr (fun u hu => by simp [hCval u hu])]
        rw [List.filter_eq_nil_iff.mpr (fun u hu => by simp [hWnull u hu])]
        exact List.append_nil C
      rcases List.mem_append.mp ht with htC | htW
      · have htv := hCval t htC
        obtain ⟨j, hj, hjeq⟩ := hpos t ht
        rw [hjeq, goGet_natCast]
        rw [foldSet_read_none (t0 :: W') ret j ?_]
        · have hr := hret t htC
          rw [hjeq, goGet_natCast] at hr
          rw [hr, if_neg (by simp [htv]), hfe]
        · intro u hu habs
          apply hdisj (a := (j : Int))
          · rw [← hjeq]
            exact List.mem_map_of_mem _ htC
          · rw [← habs]
            exact List.mem_map_of_mem _ hu
      · obtain ⟨j, hj, hjeq⟩ := hpos t ht
        rw [hjeq, goGet_natCast]
        rw [foldSet_read_mem (t0 :: W') ret j (by omega) ⟨t, htW, hjeq⟩]
        rw [if_pos (hWnull t htW)]
    · -- a valid row
      have hv : t0.2.1 = false := by simpa using hn
      simp only [rankLoop]
      rw [if_neg (by simp [hv])]
      obtain ⟨j0, hj0, hj0eq⟩ := hpos t0 (by simp)
      rcases List.eq_nil_or_concat C with rfl | ⟨C0, p0, rfl⟩
      · -- nothing processed yet: the i = 0 branch assigns rank 1
        rw [if_pos (show List.length ([] : List FRow) = 0 from rfl)]
        have hret1 : ∀ u ∈ ([t0] : List FRow),
            goGet (listSetQ ret t0.2.2 ((List.length ([] : List FRow) : ℚ) + 1)) u.2.2 =
              some (1 + (dcount (([t0] : List FRow).map Prod.fst) u.1 : ℚ)) := by
          intro u hu
          rcases List.mem_cons.mp hu with rfl | h2
          · rw [hj0eq, goGet_natCast, listSetQ_get_self _ _ _ (by omega)]
            congr 1
            simp [dcount]
          · simp at h2
        have hval1 : ∀ u ∈ ([t0] : List FRow), u.2.1 = false := by
          intro u hu
          rcases List.mem_cons.mp hu with rfl | h2
          · exact hv
          · simp at h2
        have hfin := ih [t0] (listSetQ ret t0.2.2 ((List.length ([] : List FRow) : ℚ) + 1))
          hsort hval1 hpos hnodup (by rw [listSetQ_length]; exact hlen) hret1 t ht
        have hoff0 : (((([t0] : List FRow)).map Prod.fst).dedup.length : ℚ) -
            (([t0] : List FRow).length : ℚ) =
            (((([] : List FRow)).map Prod.fst).dedup.length : ℚ) -
              (([] : List FRow).length : ℚ) := by
          simp [List.dedup_cons_of_not_mem]
        rw [hoff0] at hfin
        exact hfin
      · -- a previous row exists
        rw [List.concat_eq_append] at hsort hCval hpos hnodup hret ht hpC hcross ⊢
        rw [if_neg (by simp)]
        rw [show (C0 ++ [p0]).getLast? = some p0 from List.getLast?_concat _]
        dsimp only
        have hp0C : p0 ∈ C0 ++ [p0] := by simp
        have hp0v : p0.2.1 = false := hCval p0 hp0C
        have hCle : ∀ u ∈ C0 ++ [p0], u.1 ≤ t0.1 := by
          intro u hu
          exact ordKey_le_valid (hCval u hu) hv (hcross u hu t0 (by simp))
        have hCp0 : ∀ u ∈ C0 ++ [p0], u.1 ≤ p0.1 := by
          intro u hu
          rcases List.mem_append.mp hu with hu0 | hu1
          · obtain ⟨_, _, hcross0⟩ := List.pairwise_append.mp hpC
            exact ordKey_le_valid (hCval u hu) hp0v (hcross0 u hu0 p0 (by simp))
          · have : u = p0 := by simpa using hu1
            subst this
            exact le_refl _
        have hdisj : List.Disjoint ((C0 ++ [p0]).map (fun u => u.2.2))
            ((t0 :: W').map (fun u => u.2.2)) := by
          rw [List.map_append] at hnodup
          exact (List.nodup_append.mp hnodup).2.2
        have hnet0 : ∀ u ∈ C0 ++ [p0], t0.2.2 ≠ u.2.2 := by
          intro u hu habs
          apply hdisj (a := u.2.2)
          · exact List.mem_map_of_mem _ hu
          · rw [← habs]
            exact List.mem_map_of_mem _ (by simp)
        have hCassoc : ∀ (X : List FRow), ((C0 ++ [p0]) ++ [t0]) ++ X =
            (C0 ++ [p0]) ++ ([t0] ++ X) := by
          intro X
          rw [List.append_assoc]
        have hsort2 : (((C0 ++ [p0]) ++ [t0]) ++ W').Pairwise
            (fun a b => ordKey a ≤ ordKey b) := by
          rw [hCassoc]
          exact hsort
        have hval2 : ∀ u ∈ (C0 ++ [p0]) ++ [t0], u.2.1 = false := by
          intro u hu
          rcases List.mem_append.mp hu with hu0 | hu1
          · exact hCval u hu0
          · have : u = t0 := by simpa using hu1
            subst this
            exact hv
        have hpos2 : ∀ u ∈ ((C0 ++ [p0]) ++ [t0]) ++ W',
            ∃ j : Nat, j < n ∧ u.2.2 = (j : Int) := by
          rw [hCassoc]
          exact hpos
        have hnodup2 : ((((C0 ++ [p0]) ++ [t0]) ++ W').map (fun u => u.2.2)).Nodup := by
          rw [hCassoc]
          exact hnodup
        have ht2 : t ∈ ((C0 ++ [p0]) ++ [t0]) ++ W' := by
          rw [hCassoc]
          exact ht
        have hlast2 : ((C0 ++ [p0]) ++ [t0]).getLast? = some t0 :=
          List.getLast?_concat _
        have hlen2 : ((C0 ++ [p0]) ++ [t0]).length = (C0 ++ [p0]).length + 1 := by
          simp
        have hmapt0 : ((C0 ++ [p0]) ++ [t0]).map Prod.fst =
            (C0 ++ [p0]).map Prod.fst ++ [t0.1] := by simp
        by_cases hdup : t0.1 = p0.1
        · -- duplicate of the previous sorted value: copy its rank
          rw [if_pos hdup]
          have hrp0 := hret p0 hp0C
          rw [hrp0]
          simp only [Option.getD_some]
          have hret2 : ∀ u ∈ (C0 ++ [p0]) ++ [t0],
              goGet (listSetQ ret t0.2.2
                (1 + (dcount ((C0 ++ [p0]).map Prod.fst) p0.1 : ℚ))) u.2.2 =
                some (1 + (dcount (((C0 ++ [p0]) ++ [t0]).map Prod.fst) u.1 : ℚ)) := by
            intro u hu
            rcases List.mem_append.mp hu with hu0 | hu1
            · obtain ⟨ju, hju, hjueq⟩ := hpos u (List.mem_append_left _ hu0)
              rw [hjueq, goGet_natCast]
              rw [listSetQ_get_ne ret t0.2.2 ju _ (by rw [← hjueq]; exact hnet0 u hu0)]
              have hr := hret u hu0
              rw [hjueq, goGet_natCast] at hr
              rw [hr]
              congr 2
              rw [hmapt0]
              rw [dcount_append_ge _ _ _ (not_lt.mpr (hCle u hu0))]
            · have : u = t0 := by simpa using hu1
              subst this
              rw [hj0eq, goGet_natCast, listSetQ_get_self _ _ _ (by omega)]
              congr 2
              rw [hmapt0]
              rw [dcount_append_ge _ _ _ (not_lt.mpr (le_refl _)),hdup]
          have hoff2 : ((((C0 ++ [p0]) ++ [t0]).map Prod.fst).dedup.length : ℚ) -
              (((C0 ++ [p0]) ++ [t0]).length : ℚ) =
              ((((C0 ++ [p0]).map Prod.fst).dedup.length : ℚ) -
                ((C0 ++ [p0]).length : ℚ)) - 1 := by
            rw [hmapt0, dedupLen_append, hlen2]
            rw [if_pos (by rw [hdup]; exact List.mem_map_of_mem _ hp0C)]
            push_cast
            ring
          have hfin := ih ((C0 ++ [p0]) ++ [t0])
            (listSetQ ret t0.2.2 (1 + (dcount ((C0 ++ [p0]).map Prod.fst) p0.1 : ℚ)))
            hsort2 hval2 hpos2 hnodup2 (by rw [listSetQ_length]; exact hlen) hret2 t ht2
          rw [hoff2, hlen2, hlast2, hCassoc] at hfin
          exact hfin
        · -- a strictly larger value: naive rank corrected by the offset
          rw [if_neg hdup]
          have hp0lt : p0.1 < t0.1 :=
            lt_of_le_of_ne (hCle p0 hp0C) (fun h => hdup h.symm)
          have hfull : ((C0 ++ [p0]).map Prod.fst).filter
              (fun w => decide (w < t0.1)) = (C0 ++ [p0]).map Prod.fst := by
            apply List.filter_eq_self.mpr
            intro x hx
            obtain ⟨u, hu, rfl⟩ := List.mem_map.mp hx
            simp only [decide_eq_true_eq]
            exact lt_of_le_of_lt (hCp0 u hu) hp0lt
          have hdct0 : dcount ((C0 ++ [p0]).map Prod.fst) t0.1 =
              ((C0 ++ [p0]).map Prod.fst).dedup.length := by
            unfold dcount
            rw [hfull]
          have hnotmem : t0.1 ∉ (C0 ++ [p0]).map Prod.fst := by
            intro habs
            obtain ⟨u, hu, hueq⟩ := List.mem_map.mp habs
            have := lt_of_le_of_lt (hCp0 u hu) hp0lt
            rw [hueq] at this
            exact lt_irrefl _ this
          have hvaleq : (((C0 ++ [p0]).length : ℚ) + 1) +
              ((((C0 ++ [p0]).map Prod.fst).dedup.length : ℚ) -
                ((C0 ++ [p0]).length : ℚ)) =
              1 + (dcount (((C0 ++ [p0]) ++ [t0]).map Prod.fst) t0.1 : ℚ) := by
            rw [hmapt0, dcount_append_ge _ _ _ (not_lt.mpr (le_refl _)), hdct0]
            ring
          have hret2 : ∀ u ∈ (C0 ++ [p0]) ++ [t0],
              goGet (listSetQ ret t0.2.2
                ((((C0 ++ [p0]).length : ℚ) + 1) +
                  ((((C0 ++ [p0]).map Prod.fst).dedup.length : ℚ) -
                    ((C0 ++ [p0]).length : ℚ)))) u.2.2 =
                some (1 + (dcount (((C0 ++ [p0]) ++ [t0]).map Prod.fst) u.1 : ℚ)) := by
            intro u hu
            rcases List.mem_append.mp hu with hu0 | hu1
            · obtain ⟨ju, hju, hjueq⟩ := hpos u (List.mem_append_left _ hu0)
              rw [hjueq, goGet_natCast]
              rw [listSetQ_get_ne ret t0.2.2 ju _ (by rw [← hjueq]; exact hnet0 u hu0)]
              have hr := hret u hu0
              rw [hjueq, goGet_natCast] at hr
              rw [hr]
              congr 2
              rw [hmapt0]
              rw [dcount_append_ge _ _ _ (not_lt.mpr (hCle u hu0))]
            · have : u = t0 := by simpa using hu1
              subst this
              rw [hj0eq, goGet_natCast, listSetQ_get_self _ _ _ (by omega)]
              rw [hvaleq]
          have hoff2 : ((((C0 ++ [p0]) ++ [t0]).map Prod.fst).dedup.length : ℚ) -
              (((C0 ++ [p0]) ++ [t0]).length : ℚ) =
              (((C0 ++ [p0]).map Prod.fst).dedup.length : ℚ) -
                ((C0 ++ [p0]).length : ℚ) := by
            rw [hmapt0, dedupLen_append, hlen2]
            rw [if_neg hnotmem]
            push_cast
            ring
          have hfin := ih ((C0 ++ [p0]) ++ [t0])
            (listSetQ ret t0.2.2
              ((((C0 ++ [p0]).length : ℚ) + 1) +
                ((((C0 ++ [p0]).map Prod.fst).dedup.length : ℚ) -
                  ((C0 ++ [p0]).length : ℚ))))
            hsort2 hval2 hpos2 hnodup2 (by rw [listSetQ_length]; exact hlen) hret2 t ht2
          rw [hoff2, hlen2, hlast2, hCassoc] at hfin
          exact hfin

/-- C6 counterexample: on the column [3, 3, 5] (no nulls) the code ranks
the value 5 as 2 — the tie block {3, 3} advances the next rank by one, not
by its size — while the claim's "min-rank-with-gaps" (competition ranking)
assigns it 3. The loop's offset cancels the gap exactly, producing dense
ranks. -/
theorem claim_C6_counterexample :
    floatRank [3, 3, 5] [false, false, false] = [1, 1, 2] ∧
      minRankGaps [3, 3, 5] [false, false, false] 5 = 3 := by
  constructor
  · norm_num [floatRank, stableSort, zip3, insertStable, frowLt, rankLoop, makeIntRange,
      listSetQ, goGet, List.range_succ, List.replicate, List.set, Int.toNat]
  · norm_num [minRankGaps, validValues]

/-- C6 (corrected): for every float column, ranking sorts ascending and
null rows receive the sentinel -999, excluded from the computation; but
tied values all receive the DENSE rank of their block — one plus the
number of DISTINCT non-null values strictly below — so ranks after a tie
block are NOT offset by the number of ties (no gaps). -/
theorem claim_C6 (vals : List ℚ) (isNull : List Bool)
    (hlen : isNull.length = vals.length) (p : Nat) (v : ℚ) (b : Bool)
    (hv : vals.get? p = some v) (hb : isNull.get? p = some b) :
    (floatRank vals isNull).get? p =
      some (if b then (-999 : ℚ)
        else 1 + (dcount (validValues vals isNull) v : ℚ)) := by
  obtain ⟨hpn, _⟩ := List.get?_eq_some.mp hv
  have hcslen : (makeIntRange 0 (vals.length : Int)).length = vals.length := by
    rw [makeIntRange_zero]
    simp
  have hcsget : ∀ j : Nat, j < vals.length →
      (makeIntRange 0 (vals.length : Int)).get? j = some ((j : Int)) := by
    intro j hj
    rw [makeIntRange_zero, List.get?_map, List.get?_range hj]
    simp [Int.ofNat_eq_natCast]
  have hrmem : ((v, b, (p : Int)) : FRow) ∈
      zip3 vals isNull (makeIntRange 0 (vals.length : Int)) :=
    zip3_mem_of_get hv hb (hcsget p hpn)
  have htW : ((v, b, (p : Int)) : FRow) ∈
      stableSort frowLt (zip3 vals isNull (makeIntRange 0 (vals.length : Int))) :=
    ((stableSort_perm frowLt _).mem_iff).mpr hrmem
  have h3 : ∀ t ∈ ([] : List FRow) ++
      stableSort frowLt (zip3 vals isNull (makeIntRange 0 (vals.length : Int))),
      ∃ j : Nat, j < vals.length ∧ t.2.2 = (j : Int) := by
    intro t htm
    have htr : t ∈ zip3 vals isNull (makeIntRange 0 (vals.length : Int)) :=
      ((stableSort_perm frowLt _).mem_iff).mp htm
    obtain ⟨j, hj1, hj2, hj3⟩ := zip3_mem htr
    have hjlt : j < vals.length := by
      obtain ⟨hlt, _⟩ := List.get?_eq_some.mp hj3
      rwa [hcslen] at hlt
    refine ⟨j, hjlt, ?_⟩
    rw [hcsget j hjlt] at hj3
    exact (Option.some.inj hj3).symm
  have h4 : ((([] : List FRow) ++
      stableSort frowLt (zip3 vals isNull (makeIntRange 0 (vals.length : Int)))).map
        (fun t => t.2.2)).Nodup := by
    have hperm : ((stableSort frowLt
        (zip3 vals isNull (makeIntRange 0 (vals.length : Int)))).map
          (fun t => t.2.2)).Perm
        ((zip3 vals isNull (makeIntRange 0 (vals.length : Int))).map
          (fun t => t.2.2)) :=
      (stableSort_perm frowLt _).map _
    have hmap3 : (zip3 vals isNull (makeIntRange 0 (vals.length : Int))).map
        (fun t => t.2.2) = makeIntRange 0 (vals.length : Int) :=
      zip3_map_third _ vals isNull hcslen.symm (hlen.trans hcslen.symm)
    have hnr : (makeIntRange 0 (vals.length : Int)).Nodup := by
      rw [makeIntRange_zero]
      exact (List.nodup_range _).map (fun a c h => Int.ofNat.inj h)
    rw [hmap3] at hperm
    exact (hperm.nodup_iff).mpr hnr
  have hmain := rankLoop_main vals.length
    (stableSort frowLt (zip3 vals isNull (makeIntRange 0 (vals.length : Int))))
    [] (List.replicate vals.length 0)
    (stableSort_pairwise _)
    (fun t htm => absurd htm (List.not_mem_nil t))
    h3 h4 (List.length_replicate _ _)
    (fun t htm => absurd htm (List.not_mem_nil t))
    ((v, b, (p : Int)) : FRow) htW
  simp only [List.length_nil, List.map_nil, List.dedup_nil, Nat.cast_zero, sub_zero,
    List.getLast?_nil, List.nil_append] at hmain
  rw [goGet_natCast] at hmain
  have hdc : dcount (((stableSort frowLt
      (zip3 vals isNull (makeIntRange 0 (vals.length : Int)))).filter
        (fun u => !u.2.1)).map Prod.fst) v = dcount (validValues vals isNull) v := by
    have hpf : (((stableSort frowLt
        (zip3 vals isNull (makeIntRange 0 (vals.length : Int)))).filter
          (fun u => !u.2.1)).map Prod.fst).Perm
        (((zip3 vals isNull (makeIntRange 0 (vals.length : Int))).filter
          (fun u => !u.2.1)).map Prod.fst) :=
      ((stableSort_perm frowLt _).filter _).map _
    have heq := zip3_filter_valid (makeIntRange 0 (vals.length : Int)) vals isNull
      hcslen.symm (hlen.trans hcslen.symm)
    rw [heq] at hpf
    exact dcount_perm _ _ hpf v
  rw [hdc] at hmain
  show (rankLoop (stableSort frowLt
      (zip3 vals isNull (makeIntRange 0 (vals.length : Int)))) 0 0 none
      (List.replicate vals.length 0)).get? p = _
  rw [hmain]

/-- C6 witness: ranking [3, 3, 5] (no nulls) at position 2 yields the dense
rank of the value 5, namely 1 + 1 = 2. -/
theorem claim_C6_witness :
    (floatRank [3, 3, 5] [false, false, false]).get? 2 =
      some (if (false : Bool) then (-999 : ℚ)
        else 1 + (dcount (validValues [3, 3, 5] [false, false, false]) (5 : ℚ) : ℚ)) :=
  claim_C6 [3, 3, 5] [false, false, false] (by decide) 2 5 false rfl rfl

end Tada
